import Mathlib

/-!
Verification of the wlx monitor-layout engine: a shallow embedding of the
arrangement state (`src/state.rs`), the Hyprland/Sway/River config dialect
layer (`src/compositor/format.rs`, `crates/xwlm-cfg/src/parse.rs`) and the
string utilities they rely on.  Rust strings are modelled as `List Char`;
Rust `i32` values as `Int` (parsing checks the i32 range explicitly);
`f64` scale factors as `ℚ`; `HashMap` overlays as association lists whose
unspecified iteration order is passed explicitly where the source iterates
over a map.
-/

set_option maxRecDepth 40000

namespace Wlx

/-! ## String primitives over `List Char` -/

/-- Rust `char::is_whitespace`, restricted to the ASCII whitespace the
configs use (space, tab, carriage return, newline). -/
def wsChar (c : Char) : Bool :=
  c.isWhitespace

/-- Rust `str::trim_start`. -/
def trimLeftChars (l : List Char) : List Char :=
  l.dropWhile wsChar

/-- Rust-style right trim, recursively: a character is kept unless
everything after it trims away and it is itself whitespace. -/
def trimRightChars : List Char → List Char
  | [] => []
  | c :: cs =>
    let r := trimRightChars cs
    if r = [] ∧ wsChar c then [] else c :: r

/-- Rust `str::trim`. -/
def trimChars (l : List Char) : List Char :=
  trimLeftChars (trimRightChars l)

/-- Rust `str::starts_with`. -/
def begins (pre l : List Char) : Bool :=
  match pre, l with
  | [], _ => true
  | _ :: _, [] => false
  | a :: as_, b :: bs => a = b && begins as_ bs

/-- Rust `str::trim_start_matches(&[' ', '='])`. -/
def dropSpaceEq (l : List Char) : List Char :=
  l.dropWhile (fun c => c = ' ' ∨ c = '=')

/-- Rust `str::split(c)`: always returns at least one (possibly empty)
segment. -/
def splitOnChar (c : Char) : List Char → List (List Char)
  | [] => [[]]
  | a :: rest =>
    let r := splitOnChar c rest
    if a = c then [] :: r
    else
      match r with
      | [] => [[a]]
      | h :: t => (a :: h) :: t

/-- Rust `str::split_once(c)`. -/
def splitOnceChar (c : Char) : List Char → Option (List Char × List Char)
  | [] => none
  | a :: rest =>
    if a = c then some ([], rest)
    else (splitOnceChar c rest).map (fun p => (a :: p.1, p.2))

/-- Rust `Vec::<String>::join(sep)`. -/
def joinSep (sep : List Char) : List (List Char) → List Char
  | [] => []
  | [l] => l
  | l :: l2 :: ls => l ++ sep ++ joinSep sep (l2 :: ls)

/-- Strip one trailing carriage return (part of Rust `str::lines`). -/
def stripCR (l : List Char) : List Char :=
  if l.getLast? = some '\r' then l.dropLast else l

/-- Rust `str::lines`: split on `'\n'`, drop a final empty segment
(optional terminating newline), and strip the `'\r'` of any `"\r\n"`
line ending.  A `'\r'` not followed by `'\n'` is kept, as in Rust. -/
def rustLines (s : List Char) : List (List Char) :=
  (splitOnChar '\n' s).dropLast.map stripCR ++
    (match (splitOnChar '\n' s).getLast? with
     | some [] => []
     | some l => [l]
     | none => [])

/-! ## Decimal rendering and parsing -/

/-- The decimal digit character for `n` (`n` is always reduced mod 10 by
callers; values ≥ 9 render as `'9'`). -/
def digitChar10 (n : Nat) : Char :=
  match n with
  | 0 => '0' | 1 => '1' | 2 => '2' | 3 => '3' | 4 => '4'
  | 5 => '5' | 6 => '6' | 7 => '7' | 8 => '8' | _ => '9'

/-- Decimal rendering with structural fuel (the fuel is an upper bound
on the value, so it never runs out). -/
def natDigitsFuel : Nat → Nat → List Char
  | 0, _ => []
  | fuel + 1, n =>
    if n < 10 then [digitChar10 n]
    else natDigitsFuel fuel (n / 10) ++ [digitChar10 (n % 10)]

/-- Decimal digits of a natural number, most significant first
(Rust `format!("{}", n)` for unsigned values). -/
def natDigits (n : Nat) : List Char :=
  natDigitsFuel (n + 1) n

theorem natDigitsFuel_congr (n : Nat) :
    ∀ f f', n < f → n < f' → natDigitsFuel f n = natDigitsFuel f' n := by
  induction n using Nat.strong_induction_on with
  | _ n ih =>
    intro f f' hf hf'
    cases f with
    | zero => omega
    | succ f =>
      cases f' with
      | zero => omega
      | succ f' =>
        show (if n < 10 then [digitChar10 n]
            else natDigitsFuel f (n / 10) ++ [digitChar10 (n % 10)]) =
          (if n < 10 then [digitChar10 n]
            else natDigitsFuel f' (n / 10) ++ [digitChar10 (n % 10)])
        by_cases h10 : n < 10
        · rw [if_pos h10, if_pos h10]
        · have hlt : n / 10 < n := Nat.div_lt_self (by omega) (by omega)
          rw [if_neg h10, if_neg h10,
            ih (n / 10) hlt f f' (by omega) (by omega)]

/-- The recursion equation of `natDigits`. -/
theorem natDigits_eq (n : Nat) : natDigits n =
    if n < 10 then [digitChar10 n]
    else natDigits (n / 10) ++ [digitChar10 (n % 10)] := by
  show (if n < 10 then [digitChar10 n]
      else natDigitsFuel n (n / 10) ++ [digitChar10 (n % 10)]) = _
  by_cases h10 : n < 10
  · rw [if_pos h10, if_pos h10]
  · have hlt : n / 10 < n := Nat.div_lt_self (by omega) (by omega)
    rw [if_neg h10, if_neg h10,
      natDigitsFuel_congr (n / 10) n (n / 10 + 1) hlt (by omega)]
    rfl

/-- Rust `format!("{}", i)` for a signed integer. -/
def intRepr (i : Int) : List Char :=
  if i < 0 then '-' :: natDigits (-i).toNat else natDigits i.toNat

/-- Numeric value of a digit character. -/
def digitVal (c : Char) : Nat :=
  c.toNat - '0'.toNat

/-- Digits-only unsigned parse: fails on the empty string or any
non-digit character (the digit-consuming core of Rust `str::parse`). -/
def parseNatFromChars (l : List Char) : Option Nat :=
  if l ≠ [] ∧ l.all Char.isDigit then
    some (l.foldl (fun a c => a * 10 + digitVal c) 0)
  else none

/-- Rust `str::parse::<i32>()`: optional sign, digits, and the i32 range
check that Rust performs via overflow detection. -/
def parseI32 (l : List Char) : Option Int :=
  match l with
  | [] => none
  | c :: rest =>
    if c = '+' then
      (parseNatFromChars rest).bind
        (fun n => if (n : Int) ≤ 2 ^ 31 - 1 then some (n : Int) else none)
    else if c = '-' then
      (parseNatFromChars rest).bind
        (fun n => if (n : Int) ≤ 2 ^ 31 then some (-(n : Int)) else none)
    else
      (parseNatFromChars (c :: rest)).bind
        (fun n => if (n : Int) ≤ 2 ^ 31 - 1 then some (n : Int) else none)

/-- Rust `str::parse::<usize>()` restricted to what the configs need:
digits only, no sign (Rust `usize` parsing accepts `+`, which never
occurs in the formatted output). -/
def parseUsize (l : List Char) : Option Nat :=
  parseNatFromChars l

/-! ## Basic lemmas about the string primitives -/

theorem begins_append (p t : List Char) : begins p (p ++ t) = true := by
  induction p with
  | nil => rfl
  | cons a as ih => simp [begins, ih]

theorem head_of_begins_monitor (l : List Char)
    (h : begins ('m' :: "onitor".toList) l = true) : ∃ t, l = 'm' :: t := by
  cases l with
  | nil => simp [begins] at h
  | cons b bs =>
    simp only [begins, Bool.and_eq_true, decide_eq_true_eq] at h
    exact ⟨bs, by rw [h.1]⟩

theorem splitOnChar_ne_nil (c : Char) (l : List Char) :
    splitOnChar c l ≠ [] := by
  induction l with
  | nil => simp [splitOnChar]
  | cons a rest ih =>
    simp only [splitOnChar]
    split
    · simp
    · cases splitOnChar c rest with
      | nil => simp
      | cons hd tl => simp

theorem splitOnChar_of_not_mem (c : Char) (l : List Char) (h : c ∉ l) :
    splitOnChar c l = [l] := by
  induction l with
  | nil => rfl
  | cons a rest ih =>
    simp only [List.mem_cons, not_or] at h
    simp only [splitOnChar]
    rw [if_neg (by exact fun hc => h.1 hc.symm)]
    rw [ih h.2]

theorem splitOnChar_append_cons (c : Char) (l r : List Char) (h : c ∉ l) :
    splitOnChar c (l ++ c :: r) = l :: splitOnChar c r := by
  induction l with
  | nil => simp [splitOnChar]
  | cons a rest ih =>
    simp only [List.mem_cons, not_or] at h
    simp only [List.cons_append, splitOnChar, List.append_eq]
    rw [if_neg (by exact fun hc => h.1 hc.symm)]
    rw [ih h.2]

theorem splitOnceChar_of_not_mem (c : Char) (l : List Char) (h : c ∉ l) :
    splitOnceChar c l = none := by
  induction l with
  | nil => rfl
  | cons a rest ih =>
    simp only [List.mem_cons, not_or] at h
    simp only [splitOnceChar]
    rw [if_neg (by exact fun hc => h.1 hc.symm), ih h.2]
    rfl

theorem splitOnceChar_append_cons (c : Char) (l r : List Char) (h : c ∉ l) :
    splitOnceChar c (l ++ c :: r) = some (l, r) := by
  induction l with
  | nil => simp [splitOnceChar]
  | cons a rest ih =>
    simp only [List.mem_cons, not_or] at h
    simp only [List.cons_append, splitOnceChar, List.append_eq]
    rw [if_neg (by exact fun hc => h.1 hc.symm), ih h.2]
    rfl

theorem joinSep_cons_of_ne (sep l : List Char) (ls : List (List Char))
    (h : ls ≠ []) : joinSep sep (l :: ls) = l ++ sep ++ joinSep sep ls := by
  cases ls with
  | nil => exact absurd rfl h
  | cons l2 ls2 => rfl

theorem trimRightChars_nil : trimRightChars [] = [] := rfl

theorem trimRightChars_append_nonws (l : List Char) (c : Char)
    (h : wsChar c = false) : trimRightChars (l ++ [c]) = l ++ [c] := by
  induction l with
  | nil => simp [trimRightChars, h]
  | cons a rest ih =>
    simp only [List.cons_append, trimRightChars, List.append_eq, ih]
    rw [if_neg (by simp)]

theorem trimLeftChars_cons_nonws (c : Char) (l : List Char)
    (h : wsChar c = false) : trimLeftChars (c :: l) = c :: l := by
  simp [trimLeftChars, List.dropWhile_cons, h]

/-- A string whose first character is not whitespace and whose last
character is not whitespace is unchanged by `trim`. -/
theorem trimChars_eq_self (c : Char) (mid : List Char) (d : Char)
    (hc : wsChar c = false) (hd : wsChar d = false) :
    trimChars (c :: mid ++ [d]) = c :: mid ++ [d] := by
  unfold trimChars
  rw [show c :: mid ++ [d] = (c :: mid) ++ [d] by simp,
    trimRightChars_append_nonws _ _ hd]
  rw [show (c :: mid) ++ [d] = c :: (mid ++ [d]) by simp,
    trimLeftChars_cons_nonws _ _ hc]

theorem trimChars_singleton (c : Char) (hc : wsChar c = false) :
    trimChars [c] = [c] := by
  unfold trimChars
  rw [show ([c] : List Char) = [] ++ [c] by simp,
    trimRightChars_append_nonws _ _ hc]
  simpa using trimLeftChars_cons_nonws c [] hc

/-! ## Digit-character lemmas and parse/render round trips -/

/-- The ten decimal digit characters. -/
def decDigits : List Char :=
  ['0', '1', '2', '3', '4', '5', '6', '7', '8', '9']

theorem digitChar10_mem (n : Nat) : digitChar10 n ∈ decDigits := by
  unfold digitChar10
  split <;> decide

theorem natDigits_mem_decDigits (n : Nat) :
    ∀ c ∈ natDigits n, c ∈ decDigits := by
  induction n using Nat.strong_induction_on with
  | _ n ih =>
    rw [natDigits_eq]
    split
    · intro c hc
      rw [List.mem_singleton] at hc
      exact hc ▸ digitChar10_mem n
    · intro c hc
      rw [List.mem_append] at hc
      rcases hc with hc | hc
      · exact ih (n / 10) (Nat.div_lt_self (by omega) (by omega)) c hc
      · rw [List.mem_singleton] at hc
        exact hc ▸ digitChar10_mem (n % 10)

theorem natDigits_ne_nil (n : Nat) : natDigits n ≠ [] := by
  rw [natDigits_eq]
  split
  · simp
  · simp

theorem digitVal_digitChar10 (n : Nat) (h : n < 10) :
    digitVal (digitChar10 n) = n := by
  interval_cases n <;> decide

theorem natDigits_foldl (n : Nat) (acc : Nat) :
    (natDigits n).foldl (fun a c => a * 10 + digitVal c) acc =
      acc * 10 ^ (natDigits n).length + n := by
  induction n using Nat.strong_induction_on generalizing acc with
  | _ n ih =>
    rw [natDigits_eq]
    split
    · next h =>
      simp [List.foldl, digitVal_digitChar10 n h]
    · next h =>
      rw [List.foldl_append, List.length_append,
        ih (n / 10) (Nat.div_lt_self (by omega) (by omega)) acc]
      simp only [List.foldl, List.length_singleton]
      rw [digitVal_digitChar10 (n % 10) (Nat.mod_lt _ (by omega))]
      rw [pow_add, pow_one]
      have : 10 * (n / 10) + n % 10 = n := Nat.div_add_mod n 10
      ring_nf
      omega

theorem parseNat_natDigits (n : Nat) :
    parseNatFromChars (natDigits n) = some n := by
  unfold parseNatFromChars
  rw [if_pos]
  · rw [natDigits_foldl n 0]
    simp
  · refine ⟨natDigits_ne_nil n, ?_⟩
    rw [List.all_eq_true]
    intro c hc
    have := natDigits_mem_decDigits n c hc
    fin_cases this <;> decide

theorem mem_decDigits_facts (c : Char) (h : c ∈ decDigits) :
    c.isDigit = true ∧ wsChar c = false ∧ c ≠ ',' ∧ c ≠ '\n' ∧ c ≠ 'x' ∧
      c ≠ '\r' ∧ c ≠ '=' ∧ c ≠ '+' ∧ c ≠ '-' ∧ c ≠ ' ' ∧ c ≠ '@' ∧
      c ≠ '.' := by
  fin_cases h <;> exact ⟨rfl, rfl, by decide, by decide, by decide, by decide,
    by decide, by decide, by decide, by decide, by decide, by decide⟩

theorem natDigits_head_digit (n : Nat) :
    ∃ c cs, natDigits n = c :: cs ∧ c ∈ decDigits := by
  cases h : natDigits n with
  | nil => exact absurd h (natDigits_ne_nil n)
  | cons c cs =>
    exact ⟨c, cs, rfl, natDigits_mem_decDigits n c (h ▸ List.mem_cons_self c cs)⟩

theorem parseI32_natDigits (n : Nat) (hr : (n : Int) ≤ 2 ^ 31 - 1) :
    parseI32 (natDigits n) = some (n : Int) := by
  obtain ⟨c, cs, heq, hmem⟩ := natDigits_head_digit n
  obtain ⟨-, -, -, -, -, -, -, hplus, hminus, -, -, -⟩ := mem_decDigits_facts c hmem
  rw [heq]
  simp only [parseI32]
  rw [if_neg hplus, if_neg hminus, ← heq, parseNat_natDigits n]
  simp only [Option.some_bind]
  rw [if_pos hr]

theorem parseI32_intRepr (i : Int) (hlo : -(2 ^ 31) ≤ i) (hhi : i ≤ 2 ^ 31 - 1) :
    parseI32 (intRepr i) = some i := by
  unfold intRepr
  split
  · next hneg =>
    simp only [parseI32]
    rw [if_neg (by decide)]
    simp only [if_true, reduceCtorEq, ite_true, parseNat_natDigits,
      Option.some_bind]
    have h1 : ((-i).toNat : Int) = -i := Int.toNat_of_nonneg (by omega)
    rw [if_pos (by omega), h1]
    simp
  · next hpos =>
    have h1 : ((i.toNat : Int)) = i := Int.toNat_of_nonneg (by omega)
    have h2 := parseI32_natDigits i.toNat (by rw [h1]; exact hhi)
    rw [h2, h1]

theorem intRepr_mem (i : Int) :
    ∀ c ∈ intRepr i, c ∈ decDigits ∨ c = '-' := by
  unfold intRepr
  split
  · intro c hc
    rw [List.mem_cons] at hc
    rcases hc with hc | hc
    · exact Or.inr hc
    · exact Or.inl (natDigits_mem_decDigits _ c hc)
  · intro c hc
    exact Or.inl (natDigits_mem_decDigits _ c hc)

theorem intRepr_facts (i : Int) :
    ∀ c ∈ intRepr i, wsChar c = false ∧ c ≠ ',' ∧ c ≠ '\n' ∧ c ≠ 'x' ∧
      c ≠ '\r' ∧ c ≠ '@' := by
  intro c hc
  rcases intRepr_mem i c hc with h | h
  · obtain ⟨-, h1, h2, h3, h4, h5, -, -, -, -, h6, -⟩ := mem_decDigits_facts c h
    exact ⟨h1, h2, h3, h4, h5, h6⟩
  · subst h
    exact ⟨rfl, by decide, by decide, by decide, by decide, by decide⟩

theorem intRepr_ne_nil (i : Int) : intRepr i ≠ [] := by
  unfold intRepr
  split
  · simp
  · exact natDigits_ne_nil _

/-- `intRepr` never contains the separator characters the formatter uses,
so it survives a comma split and whitespace trim unchanged. -/
theorem not_mem_intRepr (i : Int) : ',' ∉ intRepr i ∧ '\n' ∉ intRepr i ∧
    'x' ∉ intRepr i ∧ '\r' ∉ intRepr i := by
  refine ⟨fun h => ?_, fun h => ?_, fun h => ?_, fun h => ?_⟩ <;>
    [exact (intRepr_facts i _ h).2.1 rfl;
     exact (intRepr_facts i _ h).2.2.1 rfl;
     exact (intRepr_facts i _ h).2.2.2.1 rfl;
     exact (intRepr_facts i _ h).2.2.2.2.1 rfl]

/-! ## Hyprland saved-position parser
(`crates/xwlm-cfg/src/parse.rs`, `parse_hyprland_position`) -/

/-- `parse_xy_position`: a `"XxY"` pair, split at the first `x`, each side
trimmed and parsed as `i32`. -/
def parse_xy_position (s : List Char) : Option (Int × Int) :=
  match splitOnceChar 'x' s with
  | none => none
  | some (xs, ys) =>
    match parseI32 (trimChars xs), parseI32 (trimChars ys) with
    | some x, some y => some (x, y)
    | _, _ => none

/-- One iteration of the `parse_hyprland_position` loop: comment and
non-`monitor` lines are skipped, the `monitor` keyword and surrounding
`=`/whitespace stripped, fields split on commas and trimmed; a line whose
first field is not the target name, or that contains a `disable` field, or
whose third field is absent or unparsable, leaves the accumulator alone. -/
def hyprLineStep (name : List Char) (acc : Option (Int × Int))
    (line : List Char) : Option (Int × Int) :=
  if begins "#".toList (trimChars line) ∨
      ¬ begins "monitor".toList (trimChars line) then acc
  else if ((splitOnChar ',' (trimChars (dropSpaceEq
      ((trimChars line).drop 7)))).map trimChars).head? ≠ some name then acc
  else if "disable".toList ∈ (splitOnChar ',' (trimChars (dropSpaceEq
      ((trimChars line).drop 7)))).map trimChars then acc
  else
    match ((splitOnChar ',' (trimChars (dropSpaceEq
        ((trimChars line).drop 7)))).map trimChars).get? 2 with
    | none => acc
    | some posStr =>
      match parse_xy_position posStr with
      | none => acc
      | some p => some p

/-- `parse_hyprland_position`: fold the per-line step over the file's
lines, starting from `found_position = None`. -/
def parse_hyprland_position (content name : List Char) : Option (Int × Int) :=
  (rustLines content).foldl (hyprLineStep name) none

/-- Spec-side reading of one line (4.1 of the spec): a monitor directive
whose first field is `name`, containing no `disable` token, yields the
parse of its position field (index 2, signed `<int>x<int>`); anything
else yields nothing. -/
def hyprDirectivePos (name line : List Char) : Option (Int × Int) :=
  if begins "monitor".toList (trimChars line) ∧
      ¬ begins "#".toList (trimChars line) then
    if ((splitOnChar ',' (trimChars (dropSpaceEq
          ((trimChars line).drop 7)))).map trimChars).head? = some name ∧
        "disable".toList ∉ (splitOnChar ',' (trimChars (dropSpaceEq
          ((trimChars line).drop 7)))).map trimChars then
      (((splitOnChar ',' (trimChars (dropSpaceEq
          ((trimChars line).drop 7)))).map trimChars).get? 2).bind
        parse_xy_position
    else none
  else none

theorem matchPos_eq (acc : Option (Int × Int)) (o : Option (List Char)) :
    (match o with
     | none => acc
     | some posStr =>
       match parse_xy_position posStr with
       | none => acc
       | some p => some p) = (o.bind parse_xy_position).elim acc some := by
  cases o with
  | none => rfl
  | some ps =>
    show (match parse_xy_position ps with
          | none => acc
          | some p => some p) =
      ((some ps).bind parse_xy_position).elim acc some
    rw [Option.some_bind]
    cases parse_xy_position ps with
    | none => rfl
    | some p => rfl

theorem hyprLineStep_eq_elim (name : List Char) (acc : Option (Int × Int))
    (line : List Char) :
    hyprLineStep name acc line = (hyprDirectivePos name line).elim acc some := by
  unfold hyprLineStep hyprDirectivePos
  set t := trimChars line with hts
  set parts := (splitOnChar ',' (trimChars (dropSpaceEq (t.drop 7)))).map
    trimChars with hps
  by_cases h1 : begins "#".toList t = true
  · rw [if_pos (Or.inl h1),
      if_neg (show ¬(begins "monitor".toList t = true ∧
        ¬ begins "#".toList t = true) from fun hc => hc.2 h1)]
    rfl
  · by_cases h2 : begins "monitor".toList t = true
    · rw [if_neg (show ¬(begins "#".toList t = true ∨
          ¬ begins "monitor".toList t = true) from
          fun hc => hc.elim h1 (fun hm => hm h2)),
        if_pos (show begins "monitor".toList t = true ∧
          ¬ begins "#".toList t = true from ⟨h2, h1⟩)]
      by_cases h3 : parts.head? = some name
      · rw [if_neg (show ¬ parts.head? ≠ some name from not_not_intro h3)]
        by_cases h4 : "disable".toList ∈ parts
        · rw [if_pos h4,
            if_neg (show ¬(parts.head? = some name ∧
              "disable".toList ∉ parts) from fun hc => hc.2 h4)]
          rfl
        · rw [if_neg h4,
            if_pos (show parts.head? = some name ∧
              "disable".toList ∉ parts from ⟨h3, h4⟩)]
          exact matchPos_eq acc (parts.get? 2)
      · rw [if_pos (show parts.head? ≠ some name from h3),
          if_neg (show ¬(parts.head? = some name ∧
            "disable".toList ∉ parts) from fun hc => h3 hc.1)]
        rfl
    · rw [if_pos (Or.inr (show ¬ begins "monitor".toList t = true from h2)),
        if_neg (show ¬(begins "monitor".toList t = true ∧
          ¬ begins "#".toList t = true) from fun hc => h2 hc.1)]
      rfl

theorem foldl_elim_eq_getLast (f : List Char → Option (Int × Int))
    (ls : List (List Char)) (a0 : Option (Int × Int)) :
    ls.foldl (fun acc l => (f l).elim acc some) a0 =
      ((ls.filterMap f).getLast?).elim a0 some := by
  induction ls using List.reverseRecOn with
  | nil => rfl
  | append_singleton ls l ih =>
    rw [List.foldl_append, List.filterMap_append, ih]
    cases hf : f l with
    | none => simp [hf, Option.elim]
    | some p => simp [hf, List.getLast?_concat, Option.elim]

/-- Claim C2: `parse_saved_position` for the Hyprland dialect applies
monitor directives in file order and returns the parsed position field of
the last directive for the name that is not a disable; a disable neither
terminates the scan nor erases a later re-enable, and if every directive
for the name is a disable (or none exists) the result is `None`. -/
theorem c2_parse_last_nondisable_wins :
    (∀ content name : List Char,
      parse_hyprland_position content name =
        ((rustLines content).filterMap (hyprDirectivePos name)).getLast?) ∧
    parse_hyprland_position
      "monitor = DP-1, 1920x1080@60, -1920x0, 1".toList "DP-1".toList =
        some (-1920, 0) ∧
    parse_hyprland_position
      ("monitor = eDP-1, 1920x1080@144, 100x200, 1\nmonitor = eDP-1, disable\nmonitor = eDP-1, 1920x1080@144, 300x400, 1".toList)
      "eDP-1".toList = some (300, 400) ∧
    parse_hyprland_position
      ("monitor = eDP-1, disable\nmonitor = eDP-1, 1920x1080@144, 0x0, 1".toList)
      "eDP-1".toList = some (0, 0) ∧
    parse_hyprland_position
      ("monitor = HDMI-A-1, 2560x1440@59, 1920x0, 1\nmonitor = eDP-1, disable".toList)
      "eDP-1".toList = none := by
  refine ⟨?_, by decide, by decide, by decide, by decide⟩
  intro content name
  unfold parse_hyprland_position
  have hstep : ∀ acc line, hyprLineStep name acc line =
      (hyprDirectivePos name line).elim acc some := fun acc line =>
    hyprLineStep_eq_elim name acc line
  calc (rustLines content).foldl (hyprLineStep name) none
      = (rustLines content).foldl
          (fun acc l => (hyprDirectivePos name l).elim acc some) none := by
        congr 1
        funext acc l
        exact hstep acc l
    _ = (((rustLines content).filterMap (hyprDirectivePos name)).getLast?).elim
          none some :=
        foldl_elim_eq_getLast (hyprDirectivePos name) (rustLines content) none
    _ = ((rustLines content).filterMap (hyprDirectivePos name)).getLast? := by
        cases ((rustLines content).filterMap (hyprDirectivePos name)).getLast? <;>
          rfl

/-! ## Data model (`wlx_monitors::WlMonitor`, `src/state.rs`) -/

inductive WlTransform where
  | Normal | Rotate90 | Rotate180 | Rotate270
  | Flipped | Flipped90 | Flipped180 | Flipped270
  deriving DecidableEq

structure WlMode where
  width : Int
  height : Int
  refresh_rate : Int
  is_current : Bool
  preferred : Bool
  deriving DecidableEq

structure WlMonitor where
  name : List Char
  enabled : Bool
  pos_x : Int
  pos_y : Int
  modes : List WlMode
  scale : ℚ
  transform : WlTransform
  res_w : Int
  res_h : Int
  deriving DecidableEq

/-- `constants.rs` `TRANSFORMS`. -/
def TRANSFORMS : List WlTransform :=
  [WlTransform.Normal, WlTransform.Rotate90, WlTransform.Rotate180,
   WlTransform.Rotate270, WlTransform.Flipped, WlTransform.Flipped90,
   WlTransform.Flipped180, WlTransform.Flipped270]

/-- `utils.rs` `monitor_resolution`: current mode, else preferred mode,
else first mode, else the monitor's own resolution field. -/
def monitor_resolution (m : WlMonitor) : Int × Int :=
  match m.modes.find? (fun md => md.is_current) with
  | some md => (md.width, md.height)
  | none =>
    match m.modes.find? (fun md => md.preferred) with
    | some md => (md.width, md.height)
    | none =>
      match m.modes.head? with
      | some md => (md.width, md.height)
      | none => (m.res_w, m.res_h)

/-- `utils.rs` `effective_dimensions`: width/height swapped for the four
quarter-turn transforms. -/
def effective_dimensions (m : WlMonitor) : Int × Int :=
  match m.transform with
  | WlTransform.Rotate90 | WlTransform.Rotate270
  | WlTransform.Flipped90 | WlTransform.Flipped270 =>
    ((monitor_resolution m).2, (monitor_resolution m).1)
  | _ => monitor_resolution m

structure WorkspaceAssignment where
  id : Nat
  monitor_idx : Option Nat
  is_default : Bool
  is_persistent : Bool
  deriving DecidableEq

structure WorkspaceRule where
  id : Nat
  monitor : List Char
  is_default : Bool
  is_persistent : Bool
  deriving DecidableEq

inductive PositionDirection where
  | Left | Right | Up | Down
  deriving DecidableEq

inductive Panel where
  | Monitor | Mode | Workspace | Scale | Transform
  deriving DecidableEq

/-- Commands on the engine → protocol channel (`WlMonitorAction`). -/
inductive WlMonitorAction where
  | Toggle (name : List Char) (mode : Option (Int × Int × Int))
      (position : Option (Int × Int))
  | SetPosition (name : List Char) (x y : Int)
  | SetScale (name : List Char) (scale : ℚ)
  | SetTransform (name : List Char) (transform : WlTransform)
  | SwitchMode (name : List Char) (width height refresh_rate : Int)
  deriving DecidableEq

/-! ## Association-list model of `HashMap<usize, V>`

Lookup/insert/remove have hash-map semantics; where the source iterates
over the map (whose order `HashMap` leaves unspecified), the iteration
order is passed explicitly. -/

def mapLookup {α : Type} : List (Nat × α) → Nat → Option α
  | [], _ => none
  | e :: rest, k => if e.1 = k then some e.2 else mapLookup rest k

def mapInsert {α : Type} : List (Nat × α) → Nat → α → List (Nat × α)
  | [], k, v => [(k, v)]
  | e :: rest, k, v =>
    if e.1 = k then (k, v) :: rest else e :: mapInsert rest k v

def mapErase {α : Type} : List (Nat × α) → Nat → List (Nat × α)
  | [], _ => []
  | e :: rest, k =>
    if e.1 = k then mapErase rest k else e :: mapErase rest k

theorem mapLookup_mapInsert_self {α : Type} (m : List (Nat × α)) (k : Nat)
    (v : α) : mapLookup (mapInsert m k v) k = some v := by
  induction m with
  | nil => simp [mapInsert, mapLookup]
  | cons a rest ih =>
    by_cases ha : a.1 = k
    · simp [mapInsert, mapLookup, ha]
    · simp [mapInsert, mapLookup, ha, ih]

theorem mapLookup_mapInsert_ne {α : Type} (m : List (Nat × α)) (k k' : Nat)
    (v : α) (hne : k' ≠ k) :
    mapLookup (mapInsert m k v) k' = mapLookup m k' := by
  induction m with
  | nil =>
    simp only [mapInsert, mapLookup]
    rw [if_neg (fun h : k = k' => hne h.symm)]
  | cons a rest ih =>
    by_cases ha : a.1 = k
    · simp only [mapInsert, if_pos ha, mapLookup]
      rw [if_neg (fun h => hne h.symm), if_neg (fun h => hne (ha ▸ h).symm)]
    · simp only [mapInsert, if_neg ha, mapLookup]
      by_cases hk' : a.1 = k'
      · rw [if_pos hk', if_pos hk']
      · rw [if_neg hk', if_neg hk']
        exact ih

theorem mapLookup_mapErase_self {α : Type} (m : List (Nat × α)) (k : Nat) :
    mapLookup (mapErase m k) k = none := by
  induction m with
  | nil => rfl
  | cons a rest ih =>
    by_cases ha : a.1 = k
    · simp [mapErase, ha, ih]
    · simp [mapErase, mapLookup, ha, ih]

theorem mapLookup_mapErase_ne {α : Type} (m : List (Nat × α)) (k k' : Nat)
    (hne : k' ≠ k) : mapLookup (mapErase m k) k' = mapLookup m k' := by
  induction m with
  | nil => rfl
  | cons a rest ih =>
    by_cases ha : a.1 = k
    · rw [mapErase, if_pos ha, ih, mapLookup,
        if_neg (fun h => hne ((ha ▸ h : k = k')).symm)]
    · rw [mapErase, if_neg ha, mapLookup, mapLookup]
      by_cases hk' : a.1 = k'
      · rw [if_pos hk', if_pos hk']
      · rw [if_neg hk', if_neg hk']
        exact ih

/-! ## Arrangement state (`App` in `src/state.rs`)

`Instant`-based move timing, channel handles, config paths and the
detected compositor are I/O-adjacent: the elapsed-time comparison and the
parsed saved position are passed in as explicit inputs where needed, and
sent actions are returned alongside the new state. -/

structure AppState where
  monitors : List WlMonitor
  selected_monitor : Nat
  panel : Panel
  workspace_assignments : List WorkspaceAssignment
  needs_save : Bool
  pending_positions : List (Nat × (Int × Int))
  pending_workspaces : List (Nat × WorkspaceAssignment)
  pending_scale : ℚ
  map_zoom : ℚ
  transform_state : Option Nat
  mode_state : Option Nat
  workspace_state : Option Nat
  pending_last_toggle_monitor : Bool
  error_message : Option (List Char)
  move_repeat_count : Nat
  last_move_direction : Option PositionDirection
  initial_workspaces : Option (List WorkspaceRule)
  deriving DecidableEq

/-- `App::display_position`. -/
def display_position (s : AppState) (idx : Nat) : Int × Int :=
  match mapLookup s.pending_positions idx with
  | some p => p
  | none =>
    match s.monitors.get? idx with
    | some m => (m.pos_x, m.pos_y)
    | none => (0, 0)

/-- `App::enabled_count`. -/
def enabled_count (s : AppState) : Nat :=
  (s.monitors.filter (fun m => m.enabled)).length

/-! ## `App::move_monitor` -/

/-- The strict axis-aligned rectangle intersection test used by both
`position_overlaps` and the collision scan in `move_monitor`:
`x1 < x2 + w2 && x1 + w1 > x2 && y1 < y2 + h2 && y1 + h1 > y2`. -/
def overlapsRect (x1 y1 w1 h1 x2 y2 w2 h2 : Int) : Bool :=
  decide (x1 < x2 + w2 ∧ x1 + w1 > x2 ∧ y1 < y2 + h2 ∧ y1 + h1 > y2)

/-- Repeat-acceleration counter: incremented when the previous move had
the same direction and happened within `REPEAT_WINDOW_MS`, reset
otherwise.  The `Instant` comparison is the `elapsedLtWindow` input. -/
def moveRepeat (s : AppState) (direction : PositionDirection)
    (elapsedLtWindow : Bool) : Nat :=
  if elapsedLtWindow = true ∧ s.last_move_direction = some direction then
    s.move_repeat_count + 1
  else 0

/-- The un-clamped move target per direction. -/
def moveDelta (direction : PositionDirection) (step : Int)
    (cur : Int × Int) : Int × Int :=
  match direction with
  | PositionDirection.Left => (cur.1 - step, cur.2)
  | PositionDirection.Right => (cur.1 + step, cur.2)
  | PositionDirection.Up => (cur.1, cur.2 - step)
  | PositionDirection.Down => (cur.1, cur.2 + step)

/-- `.max(0)` clamping of both coordinates. -/
def clampPos (p : Int × Int) : Int × Int :=
  (max p.1 0, max p.2 0)

/-- The collision scan: first enabled monitor other than the selected one
whose effective rectangle overlaps the move target. -/
def findCollision (s : AppState) (nx ny sw sh : Int) :
    Option (Nat × WlMonitor) :=
  s.monitors.enum.find? (fun im =>
    if im.1 = s.selected_monitor ∨ im.2.enabled = false then false
    else overlapsRect nx ny sw sh (display_position s im.1).1
      (display_position s im.1).2 (effective_dimensions im.2).1
      (effective_dimensions im.2).2)

/-- Push-through swap targets `(new_pos_selected, new_pos_other)` per
direction, before clamping. -/
def swapPositions (direction : PositionDirection) (cur other : Int × Int)
    (selDims otherDims : Int × Int) : (Int × Int) × (Int × Int) :=
  match direction with
  | PositionDirection.Left =>
    ((other.1, other.2), (other.1 + selDims.1, other.2))
  | PositionDirection.Right =>
    ((cur.1 + otherDims.1, cur.2), (cur.1, cur.2))
  | PositionDirection.Up =>
    ((other.1, other.2), (other.1, other.2 + selDims.2))
  | PositionDirection.Down =>
    ((cur.1, cur.2 + otherDims.2), (cur.1, cur.2))

/-- `App::move_monitor`: no-op for an invalid or disabled selection;
otherwise compute the accelerated step, the clamped target, scan for the
first colliding enabled monitor, and either push-through swap (both
positions clamped) or move to the clamped target.  Only
`pending_positions` and the repeat-tracking fields change. -/
def move_monitor (s : AppState) (direction : PositionDirection)
    (elapsedLtWindow : Bool) : AppState :=
  match s.monitors.get? s.selected_monitor with
  | none => s
  | some selected =>
    if selected.enabled = false then s
    else
      match findCollision s
          (clampPos (moveDelta direction
            (1 + (moveRepeat s direction elapsedLtWindow : Int) * 2)
            (display_position s s.selected_monitor))).1
          (clampPos (moveDelta direction
            (1 + (moveRepeat s direction elapsedLtWindow : Int) * 2)
            (display_position s s.selected_monitor))).2
          (effective_dimensions selected).1
          (effective_dimensions selected).2 with
      | some (oi, om) =>
        { s with
          move_repeat_count := moveRepeat s direction elapsedLtWindow,
          last_move_direction := some direction,
          pending_positions :=
            mapInsert
              (mapInsert s.pending_positions s.selected_monitor
                (clampPos (swapPositions direction
                  (display_position s s.selected_monitor)
                  (display_position s oi) (effective_dimensions selected)
                  (effective_dimensions om)).1))
              oi
              (clampPos (swapPositions direction
                (display_position s s.selected_monitor)
                (display_position s oi) (effective_dimensions selected)
                (effective_dimensions om)).2) }
      | none =>
        { s with
          move_repeat_count := moveRepeat s direction elapsedLtWindow,
          last_move_direction := some direction,
          pending_positions :=
            mapInsert s.pending_positions s.selected_monitor
              (clampPos (moveDelta direction
                (1 + (moveRepeat s direction elapsedLtWindow : Int) * 2)
                (display_position s s.selected_monitor))) }

/-- A sequence of interactive moves (each with its own timing-oracle
input). -/
def applyMoves (s : AppState) (ops : List (PositionDirection × Bool)) :
    AppState :=
  ops.foldl (fun st op => move_monitor st op.1 op.2) s

/-! ## The overlap invariant (claim C1) -/

def enabledAt (s : AppState) (i : Nat) : Bool :=
  match s.monitors.get? i with
  | some m => m.enabled
  | none => false

def effDims (s : AppState) (i : Nat) : Int × Int :=
  match s.monitors.get? i with
  | some m => effective_dimensions m
  | none => (0, 0)

/-- No two distinct enabled outputs' transform-adjusted effective
rectangles strictly intersect (touching edges allowed). -/
def noOverlapProp (s : AppState) : Prop :=
  ∀ i ∈ List.range s.monitors.length, ∀ j ∈ List.range s.monitors.length,
    i ≠ j → enabledAt s i = true → enabledAt s j = true →
      overlapsRect (display_position s i).1 (display_position s i).2
        (effDims s i).1 (effDims s i).2 (display_position s j).1
        (display_position s j).2 (effDims s j).1 (effDims s j).2 = false

/-- Every enabled output's effective position is componentwise
nonnegative. -/
def nonnegEffProp (s : AppState) : Prop :=
  ∀ i ∈ List.range s.monitors.length, enabledAt s i = true →
    0 ≤ (display_position s i).1 ∧ 0 ≤ (display_position s i).2

/-- Every output's transform-adjusted dimensions are nonnegative. -/
def dimsNonnegProp (s : AppState) : Prop :=
  ∀ m ∈ s.monitors,
    0 ≤ (effective_dimensions m).1 ∧ 0 ≤ (effective_dimensions m).2

/-- The restricted arrangement invariant of the amended claim C1: at most
two outputs, nonnegative effective positions and dimensions, and no
strict overlap between enabled outputs. -/
def smallInvProp (s : AppState) : Prop :=
  s.monitors.length ≤ 2 ∧ nonnegEffProp s ∧ dimsNonnegProp s ∧
    noOverlapProp s

instance (s : AppState) : Decidable (noOverlapProp s) := by
  unfold noOverlapProp
  infer_instance

instance (s : AppState) : Decidable (nonnegEffProp s) := by
  unfold nonnegEffProp
  infer_instance

instance (s : AppState) : Decidable (dimsNonnegProp s) := by
  unfold dimsNonnegProp
  infer_instance

instance (s : AppState) : Decidable (smallInvProp s) := by
  unfold smallInvProp
  infer_instance

theorem overlapsRect_symm (x1 y1 w1 h1 x2 y2 w2 h2 : Int) :
    overlapsRect x1 y1 w1 h1 x2 y2 w2 h2 =
      overlapsRect x2 y2 w2 h2 x1 y1 w1 h1 := by
  unfold overlapsRect
  rw [decide_eq_decide]
  omega

theorem enabledAt_lt (s : AppState) (i : Nat)
    (h : enabledAt s i = true) : i < s.monitors.length := by
  unfold enabledAt at h
  by_contra hge
  rw [List.get?_eq_none.mpr (by omega)] at h
  simp at h

theorem display_position_update1 (s : AppState) (rep : Nat)
    (d : Option PositionDirection) (k : Nat) (v : Int × Int) (i : Nat) :
    display_position
      { s with
        move_repeat_count := rep
        last_move_direction := d
        pending_positions := mapInsert s.pending_positions k v } i =
      if i = k then v else display_position s i := by
  by_cases hik : i = k
  · subst hik
    simp only [display_position, mapLookup_mapInsert_self, if_pos rfl, if_true]
  · simp only [display_position, mapLookup_mapInsert_ne _ _ _ _ hik,
      if_neg hik]

theorem display_position_update2 (s : AppState) (rep : Nat)
    (d : Option PositionDirection) (k1 : Nat) (v1 : Int × Int) (k2 : Nat)
    (v2 : Int × Int) (i : Nat) :
    display_position
      { s with
        move_repeat_count := rep
        last_move_direction := d
        pending_positions :=
          mapInsert (mapInsert s.pending_positions k1 v1) k2 v2 } i =
      if i = k2 then v2 else if i = k1 then v1 else display_position s i := by
  by_cases hik2 : i = k2
  · subst hik2
    simp only [display_position, mapLookup_mapInsert_self, if_pos rfl, if_true]
  · by_cases hik1 : i = k1
    · subst hik1
      simp only [display_position, mapLookup_mapInsert_ne _ _ _ _ hik2,
        mapLookup_mapInsert_self, if_neg hik2, if_pos rfl, if_true]
    · simp only [display_position, mapLookup_mapInsert_ne _ _ _ _ hik2,
        mapLookup_mapInsert_ne _ _ _ _ hik1, if_neg hik2, if_neg hik1]

theorem get_of_lt (l : List WlMonitor) (i : Nat) (h : i < l.length) :
    ∃ m, l.get? i = some m := by
  cases hm : l.get? i with
  | none =>
    rw [List.get?_eq_none] at hm
    omega
  | some m => exact ⟨m, rfl⟩

/-- A state whose pending overlay gained one clamped entry for the
selected monitor, which the collision scan found clear, still satisfies
the invariant. -/
theorem moveNoCol_inv (s : AppState) (dir : PositionDirection) (rep : Nat)
    (np : Int × Int) (sw sh : Int)
    (hlen : s.monitors.length ≤ 2) (hnn : nonnegEffProp s)
    (hdims : dimsNonnegProp s) (hno : noOverlapProp s)
    (hnp : 0 ≤ np.1 ∧ 0 ≤ np.2)
    (hsw : effDims s s.selected_monitor = (sw, sh))
    (hfind : findCollision s np.1 np.2 sw sh = none) :
    smallInvProp { s with
      move_repeat_count := rep
      last_move_direction := some dir
      pending_positions :=
        mapInsert s.pending_positions s.selected_monitor np } := by
  refine ⟨hlen, ?_, hdims, ?_⟩
  · intro i hi hien
    have hien' : enabledAt s i = true := hien
    rw [display_position_update1]
    by_cases hik : i = s.selected_monitor
    · rw [if_pos hik]
      exact hnp
    · rw [if_neg hik]
      exact hnn i hi hien'
  · intro i hi j hj hij hieni hienj
    have hieni' : enabledAt s i = true := hieni
    have hienj' : enabledAt s j = true := hienj
    have hi' : i < s.monitors.length := by simpa using hi
    have hj' : j < s.monitors.length := by simpa using hj
    rw [display_position_update1 s rep (some dir) s.selected_monitor np i,
      display_position_update1 s rep (some dir) s.selected_monitor np j]
    have hclear : ∀ k, k ≠ s.selected_monitor → k < s.monitors.length →
        enabledAt s k = true →
        overlapsRect np.1 np.2 sw sh (display_position s k).1
          (display_position s k).2 (effDims s k).1 (effDims s k).2 =
          false := by
      intro k hk hklt hken
      obtain ⟨mk, hmk⟩ := get_of_lt s.monitors k hklt
      have hmem : (k, mk) ∈ s.monitors.enum := by
        rw [List.mem_enum_iff_get?]
        exact hmk
      have hpred := (List.find?_eq_none.mp hfind) (k, mk) hmem
      have hkenm : mk.enabled = true := by
        unfold enabledAt at hken
        rw [hmk] at hken
        exact hken
      rw [if_neg (by
        intro hc
        rcases hc with hc | hc
        · exact hk hc
        · rw [hkenm] at hc
          exact Bool.noConfusion hc)] at hpred
      have heffk : effDims s k = effective_dimensions mk := by
        unfold effDims
        rw [hmk]
      rw [heffk]
      cases ho : overlapsRect np.1 np.2 sw sh (display_position s k).1
          (display_position s k).2 (effective_dimensions mk).1
          (effective_dimensions mk).2
      · rfl
      · exact absurd ho hpred
    by_cases hik : i = s.selected_monitor
    · subst hik
      rw [if_pos rfl, if_neg (fun h : j = s.selected_monitor => hij h.symm)]
      have h2 := hclear j (fun h => hij h.symm) hj' hienj'
      have h4 : overlapsRect np.1 np.2 (effDims s s.selected_monitor).1
          (effDims s s.selected_monitor).2 (display_position s j).1
          (display_position s j).2 (effDims s j).1 (effDims s j).2 =
          false := by
        rw [hsw]
        exact h2
      exact h4
    · rw [if_neg hik]
      by_cases hjk : j = s.selected_monitor
      · subst hjk
        rw [if_pos rfl]
        have h2 := hclear i hik hi' hieni'
        have h4 : overlapsRect (display_position s i).1
            (display_position s i).2 (effDims s i).1 (effDims s i).2
            np.1 np.2 (effDims s s.selected_monitor).1
            (effDims s s.selected_monitor).2 = false := by
          rw [overlapsRect_symm, hsw]
          exact h2
        exact h4
      · rw [if_neg hjk]
        exact hno i hi j hj hij hieni' hienj'

/-- The two push-through swap targets are edge-to-edge along the movement
axis: their clamped rectangles never strictly intersect, for any of the
four directions, whenever positions and dimensions are nonnegative. -/
theorem swap_clear (dir : PositionDirection) (cur op sd od : Int × Int)
    (hcur : 0 ≤ cur.1 ∧ 0 ≤ cur.2) (hop : 0 ≤ op.1 ∧ 0 ≤ op.2)
    (hsd : 0 ≤ sd.1 ∧ 0 ≤ sd.2) (hod : 0 ≤ od.1 ∧ 0 ≤ od.2) :
    overlapsRect (clampPos (swapPositions dir cur op sd od).1).1
      (clampPos (swapPositions dir cur op sd od).1).2 sd.1 sd.2
      (clampPos (swapPositions dir cur op sd od).2).1
      (clampPos (swapPositions dir cur op sd od).2).2 od.1 od.2 = false := by
  cases dir <;>
    (simp only [swapPositions, clampPos, overlapsRect,
      decide_eq_false_iff_not]
     omega)

/-- After a push-through swap with the colliding monitor, in a ≤2-output
arrangement the swapped pair is placed edge-to-edge along the movement
axis, so the invariant still holds. -/
theorem moveCol_inv (s : AppState) (dir : PositionDirection) (rep : Nat)
    (selected om : WlMonitor) (oi : Nat) (nx ny : Int)
    (hsel : s.monitors.get? s.selected_monitor = some selected)
    (hen : selected.enabled = true)
    (hlen : s.monitors.length ≤ 2) (hnn : nonnegEffProp s)
    (hdims : dimsNonnegProp s) (_hno : noOverlapProp s)
    (hfind : findCollision s nx ny (effective_dimensions selected).1
      (effective_dimensions selected).2 = some (oi, om)) :
    smallInvProp { s with
      move_repeat_count := rep
      last_move_direction := some dir
      pending_positions :=
        mapInsert
          (mapInsert s.pending_positions s.selected_monitor
            (clampPos (swapPositions dir
              (display_position s s.selected_monitor)
              (display_position s oi) (effective_dimensions selected)
              (effective_dimensions om)).1))
          oi
          (clampPos (swapPositions dir
            (display_position s s.selected_monitor)
            (display_position s oi) (effective_dimensions selected)
            (effective_dimensions om)).2) } := by
  have hmemp := List.mem_of_find?_eq_some hfind
  have hgetoi : s.monitors.get? oi = some om :=
    List.mem_enum_iff_get?.mp hmemp
  have hoilt : oi < s.monitors.length := by
    by_contra hge
    rw [List.get?_eq_none.mpr (by omega)] at hgetoi
    exact Option.noConfusion hgetoi
  have hsellt : s.selected_monitor < s.monitors.length := by
    by_contra hge
    rw [List.get?_eq_none.mpr (by omega)] at hsel
    exact Option.noConfusion hsel
  have hpred := List.find?_some hfind
  have hcondf : ¬(oi = s.selected_monitor ∨ om.enabled = false) := by
    intro hc
    rw [if_pos hc] at hpred
    exact Bool.noConfusion hpred
  have hne : oi ≠ s.selected_monitor := fun h => hcondf (Or.inl h)
  have hoen : om.enabled = true := by
    cases h : om.enabled
    · exact absurd (Or.inr h) hcondf
    · rfl
  have henAtSel : enabledAt s s.selected_monitor = true := by
    unfold enabledAt
    rw [hsel]
    exact hen
  have henAtOi : enabledAt s oi = true := by
    unfold enabledAt
    rw [hgetoi]
    exact hoen
  have hcur := hnn s.selected_monitor (List.mem_range.mpr hsellt) henAtSel
  have hop := hnn oi (List.mem_range.mpr hoilt) henAtOi
  have hsd := hdims selected (List.get?_mem hsel)
  have hod := hdims om (List.get?_mem hgetoi)
  have heff1 : effDims s s.selected_monitor = effective_dimensions selected := by
    unfold effDims
    rw [hsel]
  have heff2 : effDims s oi = effective_dimensions om := by
    unfold effDims
    rw [hgetoi]
  refine ⟨hlen, ?_, hdims, ?_⟩
  · intro i hi hien
    rw [display_position_update2]
    by_cases hioi : i = oi
    · rw [if_pos hioi]
      exact ⟨le_max_right _ _, le_max_right _ _⟩
    · rw [if_neg hioi]
      by_cases hisel : i = s.selected_monitor
      · rw [if_pos hisel]
        exact ⟨le_max_right _ _, le_max_right _ _⟩
      · rw [if_neg hisel]
        exact hnn i hi hien
  · intro i hi j hj hij hieni hienj
    have hi' : i < s.monitors.length := by simpa using hi
    have hj' : j < s.monitors.length := by simpa using hj
    rw [display_position_update2 s rep (some dir) s.selected_monitor _ oi _ i,
      display_position_update2 s rep (some dir) s.selected_monitor _ oi _ j]
    have hio : i = s.selected_monitor ∨ i = oi := by omega
    have hjo : j = s.selected_monitor ∨ j = oi := by omega
    rcases hio with hio | hio <;> rcases hjo with hjo | hjo
    · exact absurd (hio.trans hjo.symm) hij
    · rw [if_neg (fun h : i = oi => hne (h.symm.trans hio)), if_pos hio,
        if_pos hjo]
      have h4 : overlapsRect
          (clampPos (swapPositions dir
            (display_position s s.selected_monitor)
            (display_position s oi) (effective_dimensions selected)
            (effective_dimensions om)).1).1
          (clampPos (swapPositions dir
            (display_position s s.selected_monitor)
            (display_position s oi) (effective_dimensions selected)
            (effective_dimensions om)).1).2
          (effDims s i).1 (effDims s i).2
          (clampPos (swapPositions dir
            (display_position s s.selected_monitor)
            (display_position s oi) (effective_dimensions selected)
            (effective_dimensions om)).2).1
          (clampPos (swapPositions dir
            (display_position s s.selected_monitor)
            (display_position s oi) (effective_dimensions selected)
            (effective_dimensions om)).2).2
          (effDims s j).1 (effDims s j).2 = false := by
        rw [hio, hjo, heff1, heff2]
        exact swap_clear dir _ _ _ _ hcur hop hsd hod
      exact h4
    · rw [if_pos hio, if_neg (fun h : j = oi => hne (h.symm.trans hjo)),
        if_pos hjo]
      have h4 : overlapsRect
          (clampPos (swapPositions dir
            (display_position s s.selected_monitor)
            (display_position s oi) (effective_dimensions selected)
            (effective_dimensions om)).2).1
          (clampPos (swapPositions dir
            (display_position s s.selected_monitor)
            (display_position s oi) (effective_dimensions selected)
            (effective_dimensions om)).2).2
          (effDims s i).1 (effDims s i).2
          (clampPos (swapPositions dir
            (display_position s s.selected_monitor)
            (display_position s oi) (effective_dimensions selected)
            (effective_dimensions om)).1).1
          (clampPos (swapPositions dir
            (display_position s s.selected_monitor)
            (display_position s oi) (effective_dimensions selected)
            (effective_dimensions om)).1).2
          (effDims s j).1 (effDims s j).2 = false := by
        rw [hio, hjo, heff1, heff2, overlapsRect_symm]
        exact swap_clear dir _ _ _ _ hcur hop hsd hod
      exact h4
    · exact absurd (hio.trans hjo.symm) hij

theorem move_monitor_inv (s : AppState) (dir : PositionDirection) (e : Bool)
    (hinv : smallInvProp s) : smallInvProp (move_monitor s dir e) := by
  obtain ⟨hlen, hnn, hdims, hno⟩ := hinv
  unfold move_monitor
  split
  · exact ⟨hlen, hnn, hdims, hno⟩
  · next selected hsel =>
    by_cases henf : selected.enabled = false
    · rw [if_pos henf]
      exact ⟨hlen, hnn, hdims, hno⟩
    · rw [if_neg henf]
      have hen : selected.enabled = true := by
        cases h : selected.enabled
        · exact absurd h henf
        · rfl
      split
      · next oi om hcol =>
        exact moveCol_inv s dir (moveRepeat s dir e) selected om oi _ _
          hsel hen hlen hnn hdims hno hcol
      · next hcol =>
        exact moveNoCol_inv s dir (moveRepeat s dir e)
          (clampPos (moveDelta dir (1 + (moveRepeat s dir e : Int) * 2)
            (display_position s s.selected_monitor)))
          (effective_dimensions selected).1
          (effective_dimensions selected).2 hlen hnn hdims hno
          ⟨le_max_right _ _, le_max_right _ _⟩
          (by
            unfold effDims
            rw [hsel])
          hcol

theorem applyMoves_inv (s : AppState)
    (ops : List (PositionDirection × Bool)) (hinv : smallInvProp s) :
    smallInvProp (applyMoves s ops) := by
  induction ops generalizing s with
  | nil => exact hinv
  | cons op rest ih => exact ih _ (move_monitor_inv s op.1 op.2 hinv)

/-- Claim C1 (amended): in an arrangement of at most two outputs whose
enabled effective positions and transform-adjusted dimensions are
nonnegative and whose enabled rectangles do not strictly intersect, any
sequence of `move` operations — including push-through swaps and the
clamping to nonnegative coordinates — preserves that invariant, so no two
enabled outputs' transform-adjusted rectangles ever strictly intersect.
(The unrestricted claim is false: see the three-output counterexample.) -/
theorem c1_moves_preserve_no_overlap (s : AppState)
    (ops : List (PositionDirection × Bool)) (hinv : smallInvProp s) :
    smallInvProp (applyMoves s ops) ∧ noOverlapProp (applyMoves s ops) :=
  ⟨applyMoves_inv s ops hinv, (applyMoves_inv s ops hinv).2.2.2⟩

def c1WitMon0 : WlMonitor :=
  ⟨"eDP-1".toList, true, 0, 0, [⟨1920, 1080, 60, true, false⟩], 1,
    WlTransform.Normal, 1920, 1080⟩

def c1WitMon1 : WlMonitor :=
  ⟨"HDMI-A-1".toList, true, 1920, 0, [⟨1920, 1080, 60, true, false⟩], 1,
    WlTransform.Normal, 1920, 1080⟩

def c1WitState : AppState :=
  ⟨[c1WitMon0, c1WitMon1], 0, Panel.Monitor, [], false, [], [], 1, 1,
    some 0, some 0, some 0, false, none, 0, none, none⟩

def c1WitOps : List (PositionDirection × Bool) :=
  [(PositionDirection.Right, false), (PositionDirection.Right, true),
   (PositionDirection.Up, false), (PositionDirection.Left, true),
   (PositionDirection.Down, true)]

theorem c1_moves_preserve_no_overlap_witness :
    smallInvProp c1WitState ∧
      (smallInvProp (applyMoves c1WitState c1WitOps) ∧
       noOverlapProp (applyMoves c1WitState c1WitOps)) :=
  ⟨by decide, c1_moves_preserve_no_overlap c1WitState c1WitOps (by decide)⟩

def c1CexA : WlMonitor :=
  ⟨"A".toList, true, 0, 0, [⟨100, 100, 60, true, false⟩], 1,
    WlTransform.Normal, 100, 100⟩

def c1CexB : WlMonitor :=
  ⟨"B".toList, true, 100, 0, [⟨100, 200, 60, true, false⟩], 1,
    WlTransform.Normal, 100, 200⟩

def c1CexC : WlMonitor :=
  ⟨"C".toList, true, 0, 100, [⟨100, 100, 60, true, false⟩], 1,
    WlTransform.Normal, 100, 100⟩

def c1CexState : AppState :=
  ⟨[c1CexA, c1CexB, c1CexC], 0, Panel.Monitor, [], false, [], [], 1, 1,
    some 0, some 0, some 0, false, none, 0, none, none⟩

/-- Counterexample to claim C1 as stated: three enabled 100-wide outputs
at (0,0) (100×100), (100,0) (100×200) and (0,100) (100×100) do not
overlap; moving the first one right by one step collides with exactly the
second output (the move target overlaps no other output), and the
push-through swap moves the 100×200 output to (0,0), where it strictly
intersects the output at (0,100). -/
theorem c1_overlap_counterexample :
    noOverlapProp c1CexState ∧
    findCollision c1CexState 1 0 100 100 = some (1, c1CexB) ∧
    overlapsRect 1 0 100 100 0 100 100 100 = false ∧
    ¬ noOverlapProp
      (move_monitor c1CexState PositionDirection.Right false) := by
  refine ⟨by decide, by decide, by decide, by decide⟩

/-! ## `App::toggle_monitor` / `App::perform_toggle`

`get_position` reads the committed config file; its result is passed in
as the explicit `savedPos` input.  Channel sends are collected into the
returned action list. -/

/-- `App::position_overlaps`: does `pos`/`size` strictly intersect any
other enabled monitor's committed rectangle? -/
def position_overlaps (s : AppState) (exclude_name : List Char)
    (pos size : Int × Int) : Bool :=
  s.monitors.any (fun m =>
    if m.name = exclude_name ∨ m.enabled = false then false
    else overlapsRect pos.1 pos.2 size.1 size.2 m.pos_x m.pos_y
      (effective_dimensions m).1 (effective_dimensions m).2)

/-- Rust `Iterator::min` over `Int`. -/
def intListMin : List Int → Option Int
  | [] => none
  | x :: rest =>
    match intListMin rest with
    | none => some x
    | some a => some (min x a)

/-- Rust `Iterator::max` over `Int`. -/
def intListMax : List Int → Option Int
  | [] => none
  | x :: rest =>
    match intListMax rest with
    | none => some x
    | some a => some (max x a)

/-- Rust `Iterator::min_by_key` on `(distance, position)` pairs: the
first pair with minimal first component. -/
def minByDist : List (Int × (Int × Int)) → Option (Int × (Int × Int))
  | [] => none
  | x :: rest =>
    match minByDist rest with
    | none => some x
    | some y => if x.1 ≤ y.1 then some x else some y

/-- The other enabled monitors considered during toggle placement. -/
def exclEnabled (s : AppState) (exclude_name : List Char) :
    List WlMonitor :=
  s.monitors.filter (fun m => m.enabled && decide (¬ m.name = exclude_name))

def minLeftOf (l : List WlMonitor) : Int :=
  (intListMin (l.map (fun m => m.pos_x))).getD 0

def maxRightOf (l : List WlMonitor) : Int :=
  (intListMax (l.map (fun m => m.pos_x + (effective_dimensions m).1))).getD 0

def minTopOf (l : List WlMonitor) : Int :=
  (intListMin (l.map (fun m => m.pos_y))).getD 0

def maxBottomOf (l : List WlMonitor) : Int :=
  (intListMax (l.map (fun m => m.pos_y + (effective_dimensions m).2))).getD 0

/-- The four axis-aligned candidate slots probed by
`calculate_closest_non_overlapping_position`. -/
def candidatesOf (l : List WlMonitor) (size : Int × Int) :
    List (Int × Int) :=
  [(minLeftOf l - size.1, 0), (maxRightOf l, 0), (0, minTopOf l - size.2),
   (0, maxBottomOf l)]

/-- `App::calculate_closest_non_overlapping_position`. -/
def calculate_closest_non_overlapping_position (s : AppState)
    (exclude_name : List Char) (preferred_pos size : Int × Int) :
    Int × Int :=
  if exclEnabled s exclude_name = [] then preferred_pos
  else
    match minByDist
        (((candidatesOf (exclEnabled s exclude_name) size).filter
          (fun pos => !position_overlaps s exclude_name pos size)).map
          (fun pos =>
            (|pos.1 - preferred_pos.1| + |pos.2 - preferred_pos.2|, pos))) with
    | some dp => dp.2
    | none => (maxRightOf (exclEnabled s exclude_name), 0)

/-- `App::calculate_non_overlapping_position`: immediately to the right
of the rightmost other enabled monitor, or the origin when none. -/
def calculate_non_overlapping_position (s : AppState)
    (exclude_name : List Char) : Int × Int :=
  if exclEnabled s exclude_name = [] then (0, 0)
  else (maxRightOf (exclEnabled s exclude_name), 0)

/-- The transform-adjusted dimensions used for the toggled monitor
(falling back to 1920×1080 when the name is unknown). -/
def toggleDims (s : AppState) (monitor_name : List Char) : Int × Int :=
  match s.monitors.find? (fun m => m.name = monitor_name) with
  | some m => effective_dimensions m
  | none => (1920, 1080)

/-- The position field of the `Toggle` command computed by
`App::perform_toggle`: `None` when disabling; when enabling, the saved
position if it is clear, the closest clear candidate if it conflicts, or
the slot right of the rightmost enabled monitor if nothing was saved. -/
def perform_toggle_position (s : AppState) (monitor_name : List Char)
    (currently_enabled : Bool) (savedPos : Option (Int × Int)) :
    Option (Int × Int) :=
  if currently_enabled = false then
    some
      (match savedPos with
       | some p =>
         if position_overlaps s monitor_name p (toggleDims s monitor_name)
         then calculate_closest_non_overlapping_position s monitor_name p
           (toggleDims s monitor_name)
         else p
       | none => calculate_non_overlapping_position s monitor_name)
  else none

/-- `App::perform_toggle`: send the `Toggle` command and mark the config
as needing a save. -/
def perform_toggle (s : AppState) (monitor_name : List Char)
    (currently_enabled : Bool) (savedPos : Option (Int × Int)) :
    AppState × List WlMonitorAction :=
  ({ s with needs_save := true },
   [WlMonitorAction.Toggle monitor_name none
     (perform_toggle_position s monitor_name currently_enabled savedPos)])

/-- `App::toggle_monitor`: two-step confirmation when disabling the sole
enabled output; immediate toggle otherwise. -/
def toggle_monitor (s : AppState) (savedPos : Option (Int × Int)) :
    AppState × List WlMonitorAction :=
  if s.pending_last_toggle_monitor = true then
    match s.monitors.get? s.selected_monitor with
    | none => ({ s with pending_last_toggle_monitor := false }, [])
    | some monitor =>
      perform_toggle { s with pending_last_toggle_monitor := false }
        monitor.name monitor.enabled savedPos
  else
    match s.monitors.get? s.selected_monitor with
    | none => (s, [])
    | some monitor =>
      if monitor.enabled = true ∧ enabled_count s = 1 then
        ({ s with pending_last_toggle_monitor := true }, [])
      else
        perform_toggle s monitor.name monitor.enabled savedPos

theorem le_intListMax (l : List Int) (x : Int) (hx : x ∈ l) :
    ∃ v, intListMax l = some v ∧ x ≤ v := by
  induction l with
  | nil => simp at hx
  | cons a rest ih =>
    rw [List.mem_cons] at hx
    cases hrest : intListMax rest with
    | none =>
      rcases hx with hx | hx
      · subst hx
        exact ⟨x, by simp [intListMax, hrest], le_refl x⟩
      · obtain ⟨v, hv, _⟩ := ih hx
        rw [hv] at hrest
        exact Option.noConfusion hrest
    | some b =>
      have hmb : intListMax (a :: rest) = some (max a b) := by
        simp [intListMax, hrest]
      rcases hx with hx | hx
      · subst hx
        exact ⟨max x b, hmb, le_max_left x b⟩
      · obtain ⟨v, hv, hxv⟩ := ih hx
        rw [hv] at hrest
        have hvb : v = b := by injection hrest
        exact ⟨max a b, hmb, le_trans (hvb ▸ hxv) (le_max_right a b)⟩

theorem minByDist_cons_ne_none (b : Int × (Int × Int))
    (bs : List (Int × (Int × Int))) : minByDist (b :: bs) ≠ none := by
  rw [minByDist]
  cases minByDist bs with
  | none => exact fun h => Option.noConfusion h
  | some y =>
    show (if b.1 ≤ y.1 then some b else some y) ≠ none
    by_cases hb : b.1 ≤ y.1
    · rw [if_pos hb]
      exact fun h => Option.noConfusion h
    · rw [if_neg hb]
      exact fun h => Option.noConfusion h

theorem minByDist_spec (l : List (Int × (Int × Int)))
    (y : Int × (Int × Int)) (hy : minByDist l = some y) :
    y ∈ l ∧ ∀ z ∈ l, y.1 ≤ z.1 := by
  induction l generalizing y with
  | nil => exact Option.noConfusion hy
  | cons a rest ih =>
    cases hrest : minByDist rest with
    | none =>
      have hrnil : rest = [] := by
        cases rest with
        | nil => rfl
        | cons b bs => exact absurd hrest (minByDist_cons_ne_none b bs)
      subst hrnil
      have hya : y = a := (Option.some.inj hy).symm
      subst hya
      exact ⟨List.mem_singleton.mpr rfl, by simp⟩
    | some b =>
      obtain ⟨hbmem, hble⟩ := ih b hrest
      have hy2 : minByDist (a :: rest) =
          if a.1 ≤ b.1 then some a else some b := by
        rw [minByDist, hrest]
      rw [hy2] at hy
      by_cases hab : a.1 ≤ b.1
      · rw [if_pos hab] at hy
        have hya : y = a := (Option.some.inj hy).symm
        subst hya
        refine ⟨List.mem_cons_self _ _, ?_⟩
        intro z hz
        rw [List.mem_cons] at hz
        rcases hz with hz | hz
        · subst hz
          exact le_refl _
        · exact le_trans hab (hble z hz)
      · rw [if_neg hab] at hy
        have hyb : y = b := (Option.some.inj hy).symm
        subst hyb
        refine ⟨List.mem_cons_of_mem _ hbmem, ?_⟩
        intro z hz
        rw [List.mem_cons] at hz
        rcases hz with hz | hz
        · subst hz
          omega
        · exact hble z hz

theorem minByDist_isSome (l : List (Int × (Int × Int))) (h : l ≠ []) :
    ∃ y, minByDist l = some y := by
  cases l with
  | nil => exact absurd rfl h
  | cons a rest =>
    rw [minByDist]
    cases minByDist rest with
    | none => exact ⟨a, rfl⟩
    | some b =>
      by_cases hab : a.1 ≤ b.1
      · refine ⟨a, ?_⟩
        show (if a.1 ≤ b.1 then some a else some b) = some a
        rw [if_pos hab]
      · refine ⟨b, ?_⟩
        show (if a.1 ≤ b.1 then some a else some b) = some b
        rw [if_neg hab]

/-- The slot immediately right of the rightmost other enabled monitor
never overlaps any of them: their right edges are all at or left of it. -/
theorem maxRight_no_overlap (s : AppState) (excl : List Char)
    (size : Int × Int) :
    position_overlaps s excl (maxRightOf (exclEnabled s excl), 0) size =
      false := by
  rw [position_overlaps, List.any_eq_false]
  intro m hm
  by_cases hskip : m.name = excl ∨ m.enabled = false
  · rw [if_pos hskip]
    simp
  · rw [if_neg hskip]
    push_neg at hskip
    have hmem : m ∈ exclEnabled s excl :=
      List.mem_filter.mpr ⟨hm, by
        rcases h : m.enabled with _ | _
        · exact absurd h hskip.2
        · simp [hskip.1]⟩
    have hx : m.pos_x + (effective_dimensions m).1 ∈
        (exclEnabled s excl).map
          (fun m => m.pos_x + (effective_dimensions m).1) :=
      List.mem_map_of_mem _ hmem
    obtain ⟨v, hv, hle⟩ := le_intListMax _ _ hx
    intro hcontra
    rw [overlapsRect, decide_eq_true_iff] at hcontra
    rw [maxRightOf, hv] at hcontra
    simp only [Option.getD_some] at hcontra
    omega

/-- Claim C7: when an output is enabled via toggle, (a) a saved position
that overlaps no other enabled output's rectangle is used exactly;
(b) a conflicting saved position is replaced by a four-slot candidate
(left of leftmost / right of rightmost / above topmost / below
bottommost) that is overlap-free and of minimal Manhattan distance to
the saved position; (c) with no saved position, the output goes
immediately right of the rightmost other enabled output. -/
theorem c7_toggle_enable_placement (s : AppState) (name : List Char) :
    (∀ p, position_overlaps s name p (toggleDims s name) = false →
      perform_toggle_position s name false (some p) = some p) ∧
    (∀ p, position_overlaps s name p (toggleDims s name) = true →
      ∃ q, perform_toggle_position s name false (some p) = some q ∧
        q ∈ candidatesOf (exclEnabled s name) (toggleDims s name) ∧
        position_overlaps s name q (toggleDims s name) = false ∧
        (∀ c ∈ candidatesOf (exclEnabled s name) (toggleDims s name),
          position_overlaps s name c (toggleDims s name) = false →
          |q.1 - p.1| + |q.2 - p.2| ≤ |c.1 - p.1| + |c.2 - p.2|)) ∧
    (exclEnabled s name ≠ [] →
      perform_toggle_position s name false none =
        some (maxRightOf (exclEnabled s name), 0)) := by
  refine ⟨?_, ?_, ?_⟩
  · intro p hov
    rw [perform_toggle_position, if_pos rfl]
    rw [if_neg (by rw [hov]; exact Bool.noConfusion)]
  · intro p hov
    have hne : exclEnabled s name ≠ [] := by
      intro hnil
      rw [position_overlaps, List.any_eq_true] at hov
      obtain ⟨m, hm, hpm⟩ := hov
      by_cases hskip : m.name = name ∨ m.enabled = false
      · rw [if_pos hskip] at hpm
        exact Bool.noConfusion hpm
      · push_neg at hskip
        have hmem : m ∈ exclEnabled s name :=
          List.mem_filter.mpr ⟨hm, by
            rcases h : m.enabled with _ | _
            · exact absurd h hskip.2
            · simp [hskip.1]⟩
        rw [hnil] at hmem
        exact List.not_mem_nil m hmem
    have hsurv : (maxRightOf (exclEnabled s name), 0) ∈
        (candidatesOf (exclEnabled s name) (toggleDims s name)).filter
          (fun pos => !position_overlaps s name pos (toggleDims s name)) := by
      rw [List.mem_filter]
      refine ⟨by simp [candidatesOf], ?_⟩
      rw [maxRight_no_overlap]
      rfl
    have hmne : (((candidatesOf (exclEnabled s name)
        (toggleDims s name)).filter
          (fun pos => !position_overlaps s name pos
            (toggleDims s name))).map
          (fun pos => (|pos.1 - p.1| + |pos.2 - p.2|, pos))) ≠ [] := by
      intro hnil
      rw [List.map_eq_nil] at hnil
      rw [hnil] at hsurv
      exact List.not_mem_nil _ hsurv
    obtain ⟨y, hy⟩ := minByDist_isSome _ hmne
    obtain ⟨hymem, hymin⟩ := minByDist_spec _ y hy
    rw [List.mem_map] at hymem
    obtain ⟨q, hqsurv, hqy⟩ := hymem
    rw [List.mem_filter] at hqsurv
    refine ⟨q, ?_, hqsurv.1, ?_, ?_⟩
    · rw [perform_toggle_position, if_pos rfl]
      rw [if_pos hov]
      rw [calculate_closest_non_overlapping_position, if_neg hne, hy]
      rw [← hqy]
    · have := hqsurv.2
      cases hq : position_overlaps s name q (toggleDims s name)
      · rfl
      · rw [hq] at this
        exact Bool.noConfusion this
    · intro c hc hcov
      have hcm : (|c.1 - p.1| + |c.2 - p.2|, c) ∈
          (((candidatesOf (exclEnabled s name)
            (toggleDims s name)).filter
              (fun pos => !position_overlaps s name pos
                (toggleDims s name))).map
              (fun pos => (|pos.1 - p.1| + |pos.2 - p.2|, pos))) := by
        rw [List.mem_map]
        exact ⟨c, List.mem_filter.mpr ⟨hc, by rw [hcov]; rfl⟩, rfl⟩
      have := hymin _ hcm
      rw [← hqy] at this
      exact this
  · intro hne
    rw [perform_toggle_position, if_pos rfl]
    rw [calculate_non_overlapping_position, if_neg hne]

def c7WitSelf : WlMonitor :=
  ⟨"eDP-1".toList, false, 0, 0, [⟨1920, 1080, 60, true, false⟩], 1,
    WlTransform.Normal, 1920, 1080⟩

def c7WitOther : WlMonitor :=
  ⟨"HDMI-A-1".toList, true, 1920, 0, [⟨1920, 1080, 60, true, false⟩], 1,
    WlTransform.Normal, 1920, 1080⟩

def c7WitState : AppState :=
  ⟨[c7WitSelf, c7WitOther], 0, Panel.Monitor, [], false, [], [], 1, 1,
    some 0, some 0, some 0, false, none, 0, none, none⟩

/-- The spec's scenario: with another enabled 1920×1080 output at
(1920,0), re-enabling an output whose saved position (0,0) overlaps
nothing restores it to (0,0) exactly; with no saved position it is placed
at (3840,0), immediately right of the rightmost enabled output. -/
theorem c7_toggle_enable_placement_witness :
    perform_toggle_position c7WitState "eDP-1".toList false (some (0, 0)) =
      some (0, 0) ∧
    perform_toggle_position c7WitState "eDP-1".toList false none =
      some (3840, 0) := by
  constructor
  · exact (c7_toggle_enable_placement c7WitState "eDP-1".toList).1 (0, 0)
      (by decide)
  · have h := (c7_toggle_enable_placement c7WitState "eDP-1".toList).2.2
      (by decide)
    rw [h]
    decide

/-- Claim C8: toggling the sole enabled output only requests
confirmation (no command is sent, nothing is disabled); an invocation
while confirmation is pending performs the toggle; toggling with more
than one output enabled, or enabling a disabled output, proceeds
immediately; and the command for a currently-enabled output carries no
position (it is a disable). -/
theorem c8_toggle_confirmation (s : AppState) (sp : Option (Int × Int))
    (m : WlMonitor)
    (hm : s.monitors.get? s.selected_monitor = some m) :
    (s.pending_last_toggle_monitor = false → m.enabled = true →
      enabled_count s = 1 →
      toggle_monitor s sp =
        ({ s with pending_last_toggle_monitor := true }, [])) ∧
    (s.pending_last_toggle_monitor = true →
      toggle_monitor s sp =
        ({ s with
            pending_last_toggle_monitor := false
            needs_save := true },
         [WlMonitorAction.Toggle m.name none
           (perform_toggle_position s m.name m.enabled sp)])) ∧
    (s.pending_last_toggle_monitor = false →
      (m.enabled = false ∨ enabled_count s ≠ 1) →
      toggle_monitor s sp =
        ({ s with needs_save := true },
         [WlMonitorAction.Toggle m.name none
           (perform_toggle_position s m.name m.enabled sp)])) ∧
    perform_toggle_position s m.name true sp = none := by
  refine ⟨?_, ?_, ?_, rfl⟩
  · intro hflag hen hcount
    rw [toggle_monitor, if_neg (by rw [hflag]; exact Bool.noConfusion), hm]
    split
    · next heq => exact Option.noConfusion heq
    · next mon heq =>
      obtain rfl : m = mon := Option.some.inj heq
      split
      · rfl
      · next hcond => exact absurd ⟨hen, hcount⟩ hcond
  · intro hflag
    rw [toggle_monitor, if_pos hflag, hm]
    rfl
  · intro hflag hcase
    rw [toggle_monitor, if_neg (by rw [hflag]; exact Bool.noConfusion), hm]
    split
    · next heq => exact Option.noConfusion heq
    · next mon heq =>
      obtain rfl : m = mon := Option.some.inj heq
      split
      · next hcond =>
        exfalso
        rcases hcase with hcase | hcase
        · rw [hcase] at hcond
          exact Bool.noConfusion hcond.1
        · exact hcase hcond.2
      · rfl

def c8WitState : AppState :=
  ⟨[c7WitOther], 0, Panel.Monitor, [], false, [], [], 1, 1,
    some 0, some 0, some 0, false, none, 0, none, none⟩

/-- Toggling the sole enabled output: the first invocation sends nothing
and only sets the confirmation flag; re-invoking with the flag set sends
the disable command (position `none`). -/
theorem c8_toggle_confirmation_witness :
    toggle_monitor c8WitState none =
      ({ c8WitState with pending_last_toggle_monitor := true }, []) ∧
    toggle_monitor { c8WitState with pending_last_toggle_monitor := true }
        none =
      ({ c8WitState with needs_save := true },
       [WlMonitorAction.Toggle "HDMI-A-1".toList none none]) := by
  constructor
  · exact (c8_toggle_confirmation c8WitState none c7WitOther rfl).1 rfl rfl
      (by decide)
  · have h := (c8_toggle_confirmation
      { c8WitState with pending_last_toggle_monitor := true } none
      c7WitOther rfl).2.1 rfl
    rw [h]
    decide

/-! ## Output-list changes
(`App::set_monitors`, `App::update_monitor`, `App::remove_monitor`) -/

/-- `App::sync_panel_state`. -/
def sync_panel_state (s : AppState) : AppState :=
  match s.monitors.get? s.selected_monitor with
  | none => s
  | some monitor =>
    { s with
      pending_scale := monitor.scale
      transform_state :=
        match TRANSFORMS.findIdx? (fun x => x = monitor.transform) with
        | some tidx => some tidx
        | none => s.transform_state
      mode_state :=
        match monitor.modes.findIdx? (fun m => m.is_current) with
        | some mi => some mi
        | none => some 0 }

/-- `App::sanitize_selection`. -/
def sanitize_selection (s : AppState) : AppState :=
  if s.monitors = [] then { s with selected_monitor := 0 }
  else if s.selected_monitor ≥ s.monitors.length then
    { s with selected_monitor := s.monitors.length - 1 }
  else s

/-- Replace the first monitor with the given name (the
`iter_mut().find()` assignment in `update_monitor`). -/
def replaceFirstMonitor : List WlMonitor → WlMonitor → List WlMonitor
  | [], _ => []
  | m :: rest, monitor =>
    if m.name = monitor.name then monitor :: rest
    else m :: replaceFirstMonitor rest monitor

/-- `App::update_monitor`: upsert by name. -/
def update_monitor (s : AppState) (monitor : WlMonitor) : AppState :=
  if s.monitors.any (fun m => m.name = monitor.name) then
    { s with monitors := replaceFirstMonitor s.monitors monitor }
  else
    sanitize_selection { s with monitors := s.monitors ++ [monitor] }

/-- `App::remove_monitor`.  The `for key in keys snapshot` loop iterates
over a `HashMap` key snapshot whose order Rust leaves unspecified; the
order is the explicit `keyOrder` input (a permutation of the pending keys
at snapshot time). -/
def remove_monitor (s : AppState) (name : List Char)
    (keyOrder : List Nat) : AppState :=
  match s.monitors.findIdx? (fun m => m.name = name) with
  | none => { s with monitors := s.monitors.filter (fun m => ¬ m.name = name) }
  | some idx =>
    sync_panel_state
      { s with
        monitors := s.monitors.filter (fun m => ¬ m.name = name)
        pending_positions :=
          keyOrder.foldl (fun pm key =>
            if key > idx then
              match mapLookup pm key with
              | some pos => mapInsert (mapErase pm key) (key - 1) pos
              | none => pm
            else pm) (mapErase s.pending_positions idx)
        selected_monitor :=
          if s.selected_monitor ≥
              (s.monitors.filter (fun m => ¬ m.name = name)).length then
            (s.monitors.filter (fun m => ¬ m.name = name)).length - 1
          else s.selected_monitor }

/-- Update the first workspace assignment with the rule's id
(`iter_mut().find()` in `resolve_initial_workspaces`). -/
def updateFirstWs (was : List WorkspaceAssignment) (rule : WorkspaceRule)
    (midx : Option Nat) : List WorkspaceAssignment :=
  match was with
  | [] => []
  | w :: rest =>
    if w.id = rule.id then
      { w with
        monitor_idx := midx
        is_default := rule.is_default
        is_persistent := rule.is_persistent } :: rest
    else w :: updateFirstWs rest rule midx

/-- `App::resolve_initial_workspaces` (runs once; `take()` clears the
stored rules). -/
def resolve_initial_workspaces (s : AppState) : AppState :=
  match s.initial_workspaces with
  | none => s
  | some rules =>
    { s with
      initial_workspaces := none
      workspace_assignments :=
        rules.foldl (fun was rule =>
          updateFirstWs was rule
            (s.monitors.findIdx? (fun m => m.name = rule.monitor)))
          s.workspace_assignments }

/-- `App::validate_workspace_assignments`: clear dangling references. -/
def validate_workspace_assignments (s : AppState) : AppState :=
  { s with
    workspace_assignments := s.workspace_assignments.map (fun ws =>
      match ws.monitor_idx with
      | some idx =>
        if idx ≥ s.monitors.length then { ws with monitor_idx := none }
        else ws
      | none => ws) }

/-- `App::set_monitors`. -/
def set_monitors (s : AppState) (monitors : List WlMonitor) : AppState :=
  validate_workspace_assignments
    (resolve_initial_workspaces
      (if ({ s with monitors := monitors } : AppState).monitors ≠ [] then
        sync_panel_state
          { s with
            monitors := monitors
            selected_monitor := 0
            mode_state := some 0 }
      else { s with monitors := monitors }))

/-- Claim C5's invariant: every workspace assignment's output reference
is `None` or a valid index into the output list. -/
def wsValid (s : AppState) : Prop :=
  ∀ ws ∈ s.workspace_assignments, ∀ idx, ws.monitor_idx = some idx →
    idx < s.monitors.length

instance (s : AppState) : Decidable (wsValid s) := by
  unfold wsValid
  infer_instance

def c5State : AppState :=
  ⟨[c7WitOther], 0, Panel.Monitor, [⟨1, some 0, false, false⟩], false,
    [], [], 1, 1, some 0, some 0, some 0, false, none, 0, none, none⟩

/-- Claim C5 fails on the code: `remove_monitor` neither re-indexes nor
re-validates workspace assignments.  Removing the only output leaves a
workspace assignment pointing at index 0 of an empty output list. -/
theorem c5_remove_breaks_workspace_validity :
    wsValid c5State ∧
    (remove_monitor c5State "HDMI-A-1".toList []).monitors.length = 0 ∧
    (remove_monitor c5State "HDMI-A-1".toList []).workspace_assignments =
      [⟨1, some 0, false, false⟩] ∧
    ¬ wsValid (remove_monitor c5State "HDMI-A-1".toList []) := by
  refine ⟨by decide, by decide, by decide, by decide⟩

def c6State : AppState :=
  ⟨[c1CexA, c1CexB, c1CexC], 0, Panel.Monitor, [], false,
    [(1, (10, 10)), (2, (20, 20))], [], 1, 1, some 0, some 0, some 0,
    false, none, 0, none, none⟩

/-- Claim C6 fails on the code for some `HashMap` iteration orders:
with pending deltas at keys 1 and 2 and key snapshot order `[2, 1]`,
removing the output at index 0 overwrites the key-1 delta with the key-2
delta and leaves no delta at key 1 — instead of moving each delta down
one slot with its value preserved.  The ascending order `[1, 2]` gives
the claimed result, showing the outcome is iteration-order-dependent. -/
theorem c6_remove_reindex_order_dependent :
    List.Perm [2, 1]
      ((mapErase c6State.pending_positions 0).map Prod.fst) ∧
    mapLookup
      (remove_monitor c6State "A".toList [2, 1]).pending_positions 0 =
      some (20, 20) ∧
    mapLookup
      (remove_monitor c6State "A".toList [2, 1]).pending_positions 1 =
      none ∧
    mapLookup
      (remove_monitor c6State "A".toList [1, 2]).pending_positions 0 =
      some (10, 10) ∧
    mapLookup
      (remove_monitor c6State "A".toList [1, 2]).pending_positions 1 =
      some (20, 20) := by
  refine ⟨by decide, by decide, by decide, by decide, by decide⟩

/-- Claim C10: the effective-position read is total — a pending delta if
present, else the committed position, else (0, 0) out of range. -/
theorem c10_display_position_total (s : AppState) (idx : Nat) :
    (∀ p, mapLookup s.pending_positions idx = some p →
      display_position s idx = p) ∧
    (mapLookup s.pending_positions idx = none →
      ∀ m, s.monitors.get? idx = some m →
        display_position s idx = (m.pos_x, m.pos_y)) ∧
    (mapLookup s.pending_positions idx = none →
      s.monitors.get? idx = none → display_position s idx = (0, 0)) := by
  refine ⟨?_, ?_, ?_⟩
  · intro p hp
    rw [display_position, hp]
  · intro hn m hm
    rw [display_position, hn, hm]
  · intro hn hm
    rw [display_position, hn, hm]

def c10WitState : AppState :=
  ⟨[c7WitOther], 0, Panel.Monitor, [], false, [(0, (5, 7))], [], 1, 1,
    some 0, some 0, some 0, false, none, 0, none, none⟩

theorem c10_display_position_total_witness :
    display_position c10WitState 0 = (5, 7) ∧
    display_position c8WitState 0 = (1920, 0) ∧
    display_position c10WitState 9 = (0, 0) := by
  refine ⟨?_, ?_, ?_⟩
  · exact (c10_display_position_total c10WitState 0).1 (5, 7) rfl
  · exact (c10_display_position_total c8WitState 0).2.1 rfl c7WitOther rfl
  · exact (c10_display_position_total c10WitState 9).2.2 rfl rfl

/-! ## Commit path (`App::apply_action`, `App::save_config`)

`save_monitor_config` writes the formatted text to disk; the outcome of
that write is the explicit `writeErr` input (`none` = success, `some e` =
the I/O error's display text).  `reload` only invokes the compositor. -/

/-- The workspace rules built by `save_config` from the committed
assignments (dangling or absent references give an empty name). -/
def buildWorkspaceRules (s : AppState) : List WorkspaceRule :=
  s.workspace_assignments.map (fun ws =>
    { id := ws.id
      monitor :=
        match ws.monitor_idx.bind (fun idx => s.monitors.get? idx) with
        | some m => m.name
        | none => []
      is_default := ws.is_default
      is_persistent := ws.is_persistent })

/-- `App::save_config`: a no-op unless a save is needed; always clears
`needs_save` first; a failed write surfaces a non-fatal UI error. -/
def save_config (s : AppState) (writeErr : Option (List Char)) : AppState :=
  if s.needs_save = false then s
  else
    match writeErr with
    | some e =>
      { s with
        needs_save := false
        error_message := some ("Failed to save config: ".toList ++ e) }
    | none => { s with needs_save := false }

/-- One `monitors[idx].position = (x, y)` assignment. -/
def setMonitorPos (ms : List WlMonitor) (idx : Nat) (p : Int × Int) :
    List WlMonitor :=
  match ms.get? idx with
  | none => ms
  | some m =>
    ms.set idx { m with
      pos_x := p.1
      pos_y := p.2 }

/-- The `for (&idx, &(x, y)) in &self.pending_positions` merge loop of
the `Panel::Monitor` branch (entry order is irrelevant: keys are
distinct indices). -/
def applyPendingToMonitors (ms : List WlMonitor)
    (pending : List (Nat × (Int × Int))) : List WlMonitor :=
  pending.foldl (fun acc e => setMonitorPos acc e.1 e.2) ms

/-- `App::apply_positions`: one `SetPosition` per pending entry whose
index resolves to a monitor. -/
def apply_positions_actions (s : AppState) : List WlMonitorAction :=
  s.pending_positions.filterMap (fun e =>
    (s.monitors.get? e.1).map (fun m =>
      WlMonitorAction.SetPosition m.name e.2.1 e.2.2))

/-- One workspace-assignment overwrite of the `Panel::Workspace` merge
loop (the committed id is kept). -/
def setWsAt (was : List WorkspaceAssignment) (idx : Nat)
    (ws : WorkspaceAssignment) : List WorkspaceAssignment :=
  match was.get? idx with
  | none => was
  | some ex =>
    was.set idx { ex with
      monitor_idx := ws.monitor_idx
      is_default := ws.is_default
      is_persistent := ws.is_persistent }

def applyPendingWs (was : List WorkspaceAssignment)
    (pending : List (Nat × WorkspaceAssignment)) :
    List WorkspaceAssignment :=
  pending.foldl (fun acc e => setWsAt acc e.1 e.2) was

/-- `App::apply_mode`'s command. -/
def apply_mode_action (s : AppState) : List WlMonitorAction :=
  match s.monitors.get? s.selected_monitor with
  | none => []
  | some monitor =>
    match s.mode_state with
    | none => []
    | some mode_idx =>
      match monitor.modes.get? mode_idx with
      | none => []
      | some mode =>
        [WlMonitorAction.SwitchMode monitor.name mode.width mode.height
          mode.refresh_rate]

/-- `App::apply_scale`'s command. -/
def apply_scale_action (s : AppState) : List WlMonitorAction :=
  match s.monitors.get? s.selected_monitor with
  | none => []
  | some monitor => [WlMonitorAction.SetScale monitor.name s.pending_scale]

/-- `App::apply_transform`'s command. -/
def apply_transform_action (s : AppState) : List WlMonitorAction :=
  match s.monitors.get? s.selected_monitor with
  | none => []
  | some monitor =>
    match s.transform_state with
    | none => []
    | some idx =>
      match TRANSFORMS.get? idx with
      | none => []
      | some t => [WlMonitorAction.SetTransform monitor.name t]

/-- `App::apply_action`: apply the current panel's pending edits to the
committed model, clear the overlays, send the corresponding commands,
then mark dirty and `save_config`.  The `Monitor`/`Workspace` branches
return early, without saving, when their overlay is empty. -/
def apply_action (s : AppState) (writeErr : Option (List Char)) :
    AppState × List WlMonitorAction :=
  match s.panel with
  | Panel.Mode =>
    (save_config { s with needs_save := true } writeErr,
     apply_mode_action s)
  | Panel.Scale =>
    (save_config { s with needs_save := true } writeErr,
     apply_scale_action s)
  | Panel.Transform =>
    (save_config { s with needs_save := true } writeErr,
     apply_transform_action s)
  | Panel.Monitor =>
    if s.pending_positions = [] then (s, [])
    else
      (save_config
        { s with
          monitors := applyPendingToMonitors s.monitors s.pending_positions
          pending_positions := []
          needs_save := true } writeErr,
       apply_positions_actions
         { s with
           monitors :=
             applyPendingToMonitors s.monitors s.pending_positions })
  | Panel.Workspace =>
    if s.pending_workspaces = [] then (s, [])
    else
      (save_config
        { s with
          workspace_assignments :=
            applyPendingWs s.workspace_assignments s.pending_workspaces
          pending_workspaces := []
          needs_save := true } writeErr, [])

theorem setMonitorPos_get_ne (ms : List WlMonitor) (k idx : Nat)
    (p : Int × Int) (h : k ≠ idx) :
    (setMonitorPos ms k p).get? idx = ms.get? idx := by
  rw [setMonitorPos]
  cases ms.get? k with
  | none => rfl
  | some m =>
    rw [List.get?_eq_getElem?, List.get?_eq_getElem?,
      List.getElem?_set_ne h]

theorem setMonitorPos_get_self (ms : List WlMonitor) (k : Nat)
    (p : Int × Int) (m : WlMonitor) (hm : ms.get? k = some m) :
    (setMonitorPos ms k p).get? k =
      some { m with
        pos_x := p.1
        pos_y := p.2 } := by
  rw [setMonitorPos, hm]
  rw [List.get?_eq_getElem?, List.getElem?_set_self']
  rw [List.get?_eq_getElem?] at hm
  rw [hm]
  rfl

theorem applyPending_get_not_mem (ms : List WlMonitor)
    (pending : List (Nat × (Int × Int))) (idx : Nat)
    (h : idx ∉ pending.map Prod.fst) :
    (applyPendingToMonitors ms pending).get? idx = ms.get? idx := by
  induction pending generalizing ms with
  | nil => rfl
  | cons e rest ih =>
    rw [List.map_cons, List.mem_cons, not_or] at h
    show (applyPendingToMonitors (setMonitorPos ms e.1 e.2) rest).get? idx =
      ms.get? idx
    rw [ih _ h.2, setMonitorPos_get_ne _ _ _ _ (fun hk => h.1 hk.symm)]

theorem apply_action_monitor_ne (s : AppState) (w : Option (List Char))
    (hpanel : s.panel = Panel.Monitor)
    (hne : ¬ s.pending_positions = []) :
    apply_action s w =
      (save_config
        { s with
          monitors := applyPendingToMonitors s.monitors s.pending_positions
          pending_positions := []
          needs_save := true } w,
       apply_positions_actions
         { s with
           monitors :=
             applyPendingToMonitors s.monitors s.pending_positions }) := by
  unfold apply_action
  split <;> rename_i hp
  · rw [hpanel] at hp
    exact Panel.noConfusion hp
  · rw [hpanel] at hp
    exact Panel.noConfusion hp
  · rw [hpanel] at hp
    exact Panel.noConfusion hp
  · rw [if_neg hne]
  · rw [hpanel] at hp
    exact Panel.noConfusion hp

/-- With distinct pending keys, the merge loop sets exactly the pending
position of each indexed monitor. -/
theorem applyPending_get (ms : List WlMonitor)
    (pending : List (Nat × (Int × Int)))
    (hnd : (pending.map Prod.fst).Nodup) (idx : Nat) (p : Int × Int)
    (hp : mapLookup pending idx = some p) (m : WlMonitor)
    (hm : ms.get? idx = some m) :
    (applyPendingToMonitors ms pending).get? idx =
      some { m with
        pos_x := p.1
        pos_y := p.2 } := by
  induction pending generalizing ms with
  | nil => exact Option.noConfusion hp
  | cons e rest ih =>
    rw [List.map_cons, List.nodup_cons] at hnd
    rw [mapLookup] at hp
    show (applyPendingToMonitors (setMonitorPos ms e.1 e.2) rest).get? idx =
      _
    by_cases hk : e.1 = idx
    · rw [if_pos hk] at hp
      have hpe : e.2 = p := Option.some.inj hp
      rw [applyPending_get_not_mem _ _ _ (hk ▸ hnd.1), hk, hpe,
        setMonitorPos_get_self _ _ _ m hm]
    · rw [if_neg hk] at hp
      exact ih _ hnd.2 hp (by rw [setMonitorPos_get_ne _ _ _ _ hk, hm])

def c4Mon : WlMonitor :=
  ⟨"eDP-1".toList, true, 0, 0, [⟨1920, 1080, 60, true, false⟩], 1,
    WlTransform.Normal, 1920, 1080⟩

def c4State : AppState :=
  ⟨[c4Mon], 0, Panel.Monitor, [], false, [(0, (5, 7))], [], 1, 1,
    some 0, some 0, some 0, false, none, 0, none, none⟩

/-- Claim C4 fails on the code: committing with a pending position
overlay merges the overlay into the committed monitors and clears it
BEFORE `save_config` runs, and `save_config` resets `needs_save` before
attempting the write.  On a write failure the error is surfaced as a
non-fatal UI message, but the pending overlay is gone (not left intact),
and `needs_save` is `false`, so no retry is queued. -/
theorem c4_pending_cleared_counterexample :
    c4State.pending_positions ≠ [] ∧
    (apply_action c4State (some "disk full".toList)).1.error_message =
      some "Failed to save config: disk full".toList ∧
    (apply_action c4State (some "disk full".toList)).1.pending_positions
      = [] ∧
    (apply_action c4State (some "disk full".toList)).1.needs_save
      = false := by
  refine ⟨by decide, by decide, by decide, by decide⟩

/-- Claim C4, amended: when committing the Monitor panel with a
non-empty pending overlay (with distinct keys, as `HashMap` keys are)
and the config write fails, the error is surfaced as a non-fatal UI
error message; the pending positions are not preserved for retry but
are merged into the committed monitor list (each pending entry becomes
the committed position of its monitor, other monitors untouched), and
`needs_save` is reset to `false`. -/
theorem c4_save_failure_amended (s : AppState) (e : List Char)
    (hpanel : s.panel = Panel.Monitor)
    (hne : ¬ s.pending_positions = [])
    (hnd : (s.pending_positions.map Prod.fst).Nodup) :
    (apply_action s (some e)).1.error_message =
      some ("Failed to save config: ".toList ++ e) ∧
    (apply_action s (some e)).1.pending_positions = [] ∧
    (apply_action s (some e)).1.needs_save = false ∧
    (∀ idx p, mapLookup s.pending_positions idx = some p →
      ∀ m, s.monitors.get? idx = some m →
        (apply_action s (some e)).1.monitors.get? idx =
          some { m with
            pos_x := p.1
            pos_y := p.2 }) ∧
    (∀ idx, idx ∉ s.pending_positions.map Prod.fst →
      (apply_action s (some e)).1.monitors.get? idx =
        s.monitors.get? idx) := by
  rw [apply_action_monitor_ne s (some e) hpanel hne]
  refine ⟨rfl, rfl, rfl, ?_, ?_⟩
  · intro idx p hp m hm
    exact applyPending_get s.monitors s.pending_positions hnd idx p hp m hm
  · intro idx hidx
    exact applyPending_get_not_mem s.monitors s.pending_positions idx hidx

/-- The amended C4 statement holds at a concrete failing commit. -/
theorem c4_save_failure_amended_witness :
    c4State.panel = Panel.Monitor ∧
    ¬ c4State.pending_positions = [] ∧
    (c4State.pending_positions.map Prod.fst).Nodup ∧
    (apply_action c4State (some "boom".toList)).1.monitors.get? 0 =
      some { c4Mon with
        pos_x := 5
        pos_y := 7 } :=
  ⟨rfl, by decide, by decide,
    (c4_save_failure_amended c4State "boom".toList rfl (by decide)
      (by decide)).2.2.2.1 0 (5, 7) (by decide) c4Mon (by decide)⟩

/-! ## Config formatters (`src/compositor/format.rs`) -/

/-- `current_mode`: the current mode's `(width, height, refresh)`, or
`(0, 0, 60)` when no mode is marked current. -/
def current_mode (m : WlMonitor) : Int × Int × Int :=
  match m.modes.find? (fun md => md.is_current) with
  | some md => (md.width, md.height, md.refresh_rate)
  | none => (0, 0, 60)

def intAbs (i : Int) : Int :=
  if i < 0 then -i else i

/-- `⌊n/d + 1/2⌋` for `d > 0`, on the fraction's integers (all scale
arithmetic is done on `q.num`/`q.den` so that it reduces without
rational normalisation). -/
def halfUp (n d : Int) : Int :=
  (2 * n + d) / (2 * d)

/-- `f64::round` (half away from zero) on the rational scale value. -/
def ratRound (q : ℚ) : Int :=
  if q.num < 0 then -(halfUp (-q.num) (q.den : Int))
  else halfUp q.num (q.den : Int)

/-- `scale as i32`: truncation toward zero. -/
def ratTrunc (q : ℚ) : Int :=
  if q.num < 0 then -((-q.num) / (q.den : Int))
  else q.num / (q.den : Int)

/-- `(scale * 100.0).round()` as used by `{:.2}`: the value in
hundredths, rounded half away from zero. -/
def ratRound100 (q : ℚ) : Int :=
  if q.num < 0 then -(halfUp (100 * -q.num) (q.den : Int))
  else halfUp (100 * q.num) (q.den : Int)

/-- The two digits `{:.2}` prints after the decimal point, given the
value scaled to hundredths. -/
def twoFracDigits (n : Nat) : List Char :=
  [digitChar10 (n / 10 % 10), digitChar10 (n % 10)]

/-- `format_scale`: scales within 0.001 of their rounding
(`|q - round q| < 1/1000`, stated as `1000·|num - round·den| < den`)
print as truncated integers, others with two decimals.  The `f64` is
modelled as the exact rational it denotes; the decimal rounding of
`{:.2}` is modelled half away from zero. -/
def format_scale (q : ℚ) : List Char :=
  if 1000 * intAbs (q.num - ratRound q * (q.den : Int)) < (q.den : Int)
  then intRepr (ratTrunc q)
  else if ratRound100 q < 0 then
    '-' :: (natDigits ((-(ratRound100 q)).toNat / 100) ++
      '.' :: twoFracDigits (-(ratRound100 q)).toNat)
  else
    natDigits ((ratRound100 q).toNat / 100) ++
      '.' :: twoFracDigits (ratRound100 q).toNat

def transform_to_hyprland (t : WlTransform) : Nat :=
  match t with
  | WlTransform.Normal => 0
  | WlTransform.Rotate90 => 1
  | WlTransform.Rotate180 => 2
  | WlTransform.Rotate270 => 3
  | WlTransform.Flipped => 4
  | WlTransform.Flipped90 => 5
  | WlTransform.Flipped180 => 6
  | WlTransform.Flipped270 => 7

def transform_to_sway (t : WlTransform) : List Char :=
  match t with
  | WlTransform.Normal => "normal".toList
  | WlTransform.Rotate90 => "90".toList
  | WlTransform.Rotate180 => "180".toList
  | WlTransform.Rotate270 => "270".toList
  | WlTransform.Flipped => "flipped".toList
  | WlTransform.Flipped90 => "flipped-90".toList
  | WlTransform.Flipped180 => "flipped-180".toList
  | WlTransform.Flipped270 => "flipped-270".toList

/-- The `{}x{}@{}` mode field of a Hyprland monitor line. -/
def hyprModeStr (m : WlMonitor) : List Char :=
  intRepr (current_mode m).1 ++ 'x' :: intRepr (current_mode m).2.1 ++
    '@' :: intRepr (current_mode m).2.2

/-- The `{}x{}` position field of a Hyprland monitor line. -/
def hyprPosStr (m : WlMonitor) : List Char :=
  intRepr m.pos_x ++ 'x' :: intRepr m.pos_y

/-- `format_hyprland`'s `base` line:
`monitor = {name}, {w}x{h}@{refresh}, {x}x{y}, {scale}`. -/
def hyprBaseLine (m : WlMonitor) : List Char :=
  "monitor = ".toList ++ m.name ++ ", ".toList ++ hyprModeStr m ++
    ", ".toList ++ hyprPosStr m ++ ", ".toList ++ format_scale m.scale

/-- The line(s) `format_hyprland` pushes for one monitor: the base line
(with a transform suffix when non-Normal), then a disable line when the
monitor is disabled. -/
def hyprMonitorLines (m : WlMonitor) : List (List Char) :=
  (if m.transform ≠ WlTransform.Normal then
    hyprBaseLine m ++ ", transform, ".toList ++
      natDigits (transform_to_hyprland m.transform)
  else hyprBaseLine m) ::
    (if m.enabled = false then
      ["monitor = ".toList ++ m.name ++ ", disable".toList]
    else [])

/-- One Hyprland workspace line:
`workspace = {id}, monitor:{name}[,default:true][,persistent:true]`. -/
def hyprWsLine (ws : WorkspaceRule) : List Char :=
  "workspace = ".toList ++ natDigits ws.id ++ ", monitor:".toList ++
    ws.monitor ++
    (if ws.is_default then ",default:true".toList else []) ++
    (if ws.is_persistent then ",persistent:true".toList else [])

/-- All lines of `format_hyprland` before the final empty line: monitor
lines in input order, then (when any workspace rules exist) a blank
separator and the workspace lines. -/
def hyprAllLines (ms : List WlMonitor) (wss : List WorkspaceRule) :
    List (List Char) :=
  ms.flatMap hyprMonitorLines ++
    (if wss = [] then [] else [] :: wss.map hyprWsLine)

/-- `format_hyprland`: the lines, a final empty element, joined with
newlines. -/
def format_hyprland (ms : List WlMonitor) (wss : List WorkspaceRule) :
    List Char :=
  joinSep ['\n'] (hyprAllLines ms wss ++ [[]])

/-- One `format_sway` block: a disable line for a disabled output, the
five-line `output { … }` block otherwise. -/
def swayMonitorBlock (m : WlMonitor) : List Char :=
  if m.enabled = false then
    "output ".toList ++ m.name ++ " disable".toList
  else
    "output ".toList ++ m.name ++ " \x7b\n    mode ".toList ++
      intRepr (current_mode m).1 ++ 'x' :: intRepr (current_mode m).2.1 ++
      '@' :: intRepr (current_mode m).2.2 ++ "Hz\n    pos ".toList ++
      intRepr m.pos_x ++ ' ' :: intRepr m.pos_y ++
      "\n    scale ".toList ++ format_scale m.scale ++
      "\n    transform ".toList ++ transform_to_sway m.transform ++
      "\n\x7d".toList

/-- One Sway workspace line: `workspace {id} output {name}`. -/
def swayWsLine (ws : WorkspaceRule) : List Char :=
  "workspace ".toList ++ natDigits ws.id ++ " output ".toList ++ ws.monitor

/-- `format_sway`: monitor blocks, the workspace lines as one block when
any exist, a final empty element, joined with blank lines. -/
def format_sway (ms : List WlMonitor) (wss : List WorkspaceRule) :
    List Char :=
  joinSep ['\n', '\n']
    ((ms.map swayMonitorBlock ++
      (if wss = [] then [] else [joinSep ['\n'] (wss.map swayWsLine)])) ++
      [[]])

/-- One `format_river` line: a `wlr-randr` off or mode/pos/scale/transform
invocation. -/
def riverLine (m : WlMonitor) : List Char :=
  if m.enabled = false then
    "wlr-randr --output ".toList ++ m.name ++ " --off".toList
  else
    "wlr-randr --output ".toList ++ m.name ++ " --mode ".toList ++
      intRepr (current_mode m).1 ++ 'x' :: intRepr (current_mode m).2.1 ++
      '@' :: intRepr (current_mode m).2.2 ++ "Hz --pos ".toList ++
      intRepr m.pos_x ++ ',' :: intRepr m.pos_y ++ " --scale ".toList ++
      format_scale m.scale ++ " --transform ".toList ++
      transform_to_sway m.transform

/-- `format_river`: a shebang, one wlr-randr line per monitor in input
order, a final empty element, joined with newlines. -/
def format_river (ms : List WlMonitor) : List Char :=
  joinSep ['\n'] (("#!/bin/sh".toList :: ms.map riverLine) ++ [[]])

inductive Compositor where
  | Hyprland
  | Sway
  | River
  | Unknown
  deriving DecidableEq

/-- The managed-file comment `save_monitor_config` prepends. -/
def configHeader : List Char :=
  "# This file is managed by xwlm. Do not edit manually.\n\n".toList

/-- The text `save_monitor_config` writes (the write itself and the Ok
return for `Unknown` are the I/O boundary). -/
def save_monitor_config_content (c : Compositor) (ms : List WlMonitor)
    (wss : List WorkspaceRule) : Option (List Char) :=
  match c with
  | Compositor.Hyprland => some (configHeader ++ format_hyprland ms wss)
  | Compositor.Sway => some (configHeader ++ format_sway ms wss)
  | Compositor.River => some (configHeader ++ format_river ms)
  | Compositor.Unknown => none

/-! ## Line and trim lemmas used to re-read the formatted output -/

theorem splitOnChar_append_split (c : Char) (A R : List Char) :
    splitOnChar c (A ++ c :: R) = splitOnChar c A ++ splitOnChar c R := by
  induction A with
  | nil => simp [splitOnChar]
  | cons a A' ih =>
    by_cases hac : a = c
    · subst hac
      simp only [List.cons_append, splitOnChar, if_pos rfl, ih,
        List.append_eq]
      rfl
    · simp only [List.cons_append, splitOnChar, if_neg hac, ih,
        List.append_eq]
      cases hA : splitOnChar c A' with
      | nil => exact absurd hA (splitOnChar_ne_nil c A')
      | cons h t => rfl

theorem rustLines_nil : rustLines [] = [] := rfl

theorem rustLines_append_newline (A R : List Char) :
    rustLines (A ++ '\n' :: R) =
      (splitOnChar '\n' A).map stripCR ++ rustLines R := by
  unfold rustLines
  rw [splitOnChar_append_split]
  have hR := splitOnChar_ne_nil '\n' R
  rw [List.dropLast_append_of_ne_nil _ hR, List.getLast?_append_of_ne_nil _ hR,
    List.map_append, List.append_assoc]

theorem stripCR_of_not_mem (l : List Char) (h : '\r' ∉ l) :
    stripCR l = l := by
  unfold stripCR
  rw [if_neg]
  intro hc
  exact h (List.mem_of_mem_getLast? hc)

theorem trimLeftChars_eq_self (l : List Char)
    (h : ∀ c, l.head? = some c → wsChar c = false) :
    trimLeftChars l = l := by
  cases l with
  | nil => rfl
  | cons a t =>
    unfold trimLeftChars
    rw [List.dropWhile_cons_of_neg]
    rw [h a rfl]
    exact Bool.noConfusion

theorem trimRightChars_eq_self (l : List Char)
    (h : ∀ c, l.getLast? = some c → wsChar c = false) :
    trimRightChars l = l := by
  induction l with
  | nil => rfl
  | cons a t ih =>
    cases t with
    | nil => simp [trimRightChars, h a rfl]
    | cons b t' =>
      have ht := ih (fun c hc => h c (by rw [List.getLast?_cons_cons, hc]))
      show (if trimRightChars (b :: t') = [] ∧ wsChar a then []
        else a :: trimRightChars (b :: t')) = a :: b :: t'
      rw [ht, if_neg (fun hc => List.noConfusion hc.1)]

theorem trimChars_of_edges (l : List Char)
    (hh : ∀ c, l.head? = some c → wsChar c = false)
    (hl : ∀ c, l.getLast? = some c → wsChar c = false) :
    trimChars l = l := by
  unfold trimChars
  rw [trimRightChars_eq_self l hl, trimLeftChars_eq_self l hh]

theorem trimChars_of_all_nonws (l : List Char)
    (h : ∀ c ∈ l, wsChar c = false) :
    trimChars l = l :=
  trimChars_of_edges l
    (fun c hc => h c (by cases l with
      | nil => exact Option.noConfusion hc
      | cons a t => exact (Option.some.inj hc) ▸ List.mem_cons_self a t))
    (fun c hc => h c (List.mem_of_mem_getLast? hc))

theorem trimChars_cons_ws (c : Char) (hc : wsChar c = true)
    (s : List Char) : trimChars (c :: s) = trimChars s := by
  unfold trimChars
  show trimLeftChars (if trimRightChars s = [] ∧ wsChar c then []
    else c :: trimRightChars s) = _
  by_cases hs : trimRightChars s = []
  · rw [if_pos ⟨hs, hc⟩, hs]
  · rw [if_neg (fun hp => hs hp.1)]
    unfold trimLeftChars
    rw [List.dropWhile_cons_of_pos hc]

theorem joinSep_append_empty (sep : List Char) (ls : List (List Char))
    (h : ls ≠ []) :
    joinSep sep (ls ++ [[]]) = joinSep sep ls ++ sep := by
  induction ls with
  | nil => exact absurd rfl h
  | cons l rest ih =>
    cases rest with
    | nil => simp [joinSep]
    | cons l2 rest' =>
      rw [List.cons_append,
        joinSep_cons_of_ne sep l ((l2 :: rest') ++ [[]]) (by simp),
        ih (by simp), joinSep_cons_of_ne sep l (l2 :: rest') (by simp)]
      simp [List.append_assoc]

theorem rustLines_joinSep_lines (ls : List (List Char))
    (h : ∀ l ∈ ls, '\n' ∉ l ∧ stripCR l = l) :
    rustLines (joinSep ['\n'] (ls ++ [[]])) = ls := by
  induction ls with
  | nil => rfl
  | cons l rest ih =>
    have hl := h l (List.mem_cons_self l rest)
    rw [List.cons_append,
      joinSep_cons_of_ne ['\n'] l (rest ++ [[]]) (by simp),
      show l ++ ['\n'] ++ joinSep ['\n'] (rest ++ [[]]) =
        l ++ '\n' :: joinSep ['\n'] (rest ++ [[]]) by simp,
      rustLines_append_newline,
      splitOnChar_of_not_mem '\n' l hl.1,
      ih (fun x hx => h x (List.mem_cons_of_mem l hx))]
    simp [hl.2]

theorem takeWhile_append_cons (p : Char → Bool) (A : List Char) (b : Char)
    (r : List Char) (hA : ∀ c ∈ A, p c = true) (hb : p b = false) :
    List.takeWhile p (A ++ b :: r) = A := by
  induction A with
  | nil => simp [List.takeWhile_cons, hb]
  | cons a A' ih =>
    rw [List.cons_append, List.takeWhile_cons,
      hA a (List.mem_cons_self a A'),
      ih (fun c hc => hA c (List.mem_cons_of_mem a hc))]
    simp

theorem begins_cons_ne (c d : Char) (p l : List Char) (h : c ≠ d) :
    begins (c :: p) (d :: l) = false := by
  simp [begins, h]

theorem getLast?_cons_ne {α : Type} (a : α) (l : List α) (h : l ≠ []) :
    (a :: l).getLast? = l.getLast? := by
  cases l with
  | nil => exact absurd rfl h
  | cons b t => exact List.getLast?_cons_cons

theorem natDigits_getLast (n : Nat) :
    (natDigits n).getLast? = some (digitChar10 (n % 10)) := by
  rw [natDigits_eq]
  split
  · next h =>
    rw [Nat.mod_eq_of_lt h]
    rfl
  · rw [List.getLast?_concat]

theorem intRepr_getLast (i : Int) :
    ∃ c, (intRepr i).getLast? = some c ∧ c ∈ decDigits := by
  unfold intRepr
  split
  · refine ⟨digitChar10 ((-i).toNat % 10), ?_, digitChar10_mem _⟩
    rw [getLast?_cons_ne '-' _ (natDigits_ne_nil _), natDigits_getLast]
  · exact ⟨digitChar10 (i.toNat % 10), natDigits_getLast _,
      digitChar10_mem _⟩

theorem format_scale_mem (q : ℚ) :
    ∀ c ∈ format_scale q, c ∈ decDigits ∨ c = '-' ∨ c = '.' := by
  unfold format_scale
  split
  · intro c hc
    rcases intRepr_mem _ c hc with h | h
    · exact Or.inl h
    · exact Or.inr (Or.inl h)
  · split
    · intro c hc
      rcases List.mem_cons.1 hc with h | h
      · exact Or.inr (Or.inl h)
      · rcases List.mem_append.1 h with h | h
        · exact Or.inl (natDigits_mem_decDigits _ c h)
        · rcases List.mem_cons.1 h with h | h
          · exact Or.inr (Or.inr h)
          · unfold twoFracDigits at h
            rcases List.mem_cons.1 h with h | h
            · exact Or.inl (h ▸ digitChar10_mem _)
            · rw [List.mem_singleton] at h
              exact Or.inl (h ▸ digitChar10_mem _)
    · intro c hc
      rcases List.mem_append.1 hc with h | h
      · exact Or.inl (natDigits_mem_decDigits _ c h)
      · rcases List.mem_cons.1 h with h | h
        · exact Or.inr (Or.inr h)
        · unfold twoFracDigits at h
          rcases List.mem_cons.1 h with h | h
          · exact Or.inl (h ▸ digitChar10_mem _)
          · rw [List.mem_singleton] at h
            exact Or.inl (h ▸ digitChar10_mem _)

theorem format_scale_ne_nil (q : ℚ) : format_scale q ≠ [] := by
  unfold format_scale
  split
  · exact intRepr_ne_nil _
  · split
    · simp
    · simp [natDigits_ne_nil]

theorem format_scale_nonws (q : ℚ) :
    ∀ c ∈ format_scale q, wsChar c = false := by
  intro c hc
  rcases format_scale_mem q c hc with h | h | h
  · exact (mem_decDigits_facts c h).2.1
  · rw [h]
    rfl
  · rw [h]
    rfl

theorem format_scale_clean (q : ℚ) :
    ',' ∉ format_scale q ∧ '\n' ∉ format_scale q ∧
      '\r' ∉ format_scale q ∧ 'd' ∉ format_scale q := by
  refine ⟨fun h => ?_, fun h => ?_, fun h => ?_, fun h => ?_⟩ <;>
    rcases format_scale_mem q _ h with h' | h' | h' <;>
      exact absurd h' (by decide)

theorem format_scale_ne_disable (q : ℚ) :
    format_scale q ≠ "disable".toList := by
  intro h
  have : 'd' ∈ format_scale q := by
    rw [h]
    decide
  exact (format_scale_clean q).2.2.2 this

theorem transform_to_sway_clean (t : WlTransform) :
    '\n' ∉ transform_to_sway t ∧ '\r' ∉ transform_to_sway t ∧
      (∀ c ∈ transform_to_sway t, wsChar c = false) := by
  cases t <;> exact ⟨by decide, by decide, by decide⟩

/-- The well-formedness a monitor (or workspace target) name needs for
the formatted config to read back: nonempty, no whitespace, no comma or
equals sign, and not the keyword `disable`. -/
def goodName (n : List Char) : Prop :=
  n ≠ [] ∧ (∀ c ∈ n, wsChar c = false) ∧ ',' ∉ n ∧ '=' ∉ n ∧
    n ≠ "disable".toList

instance goodName_decidable (n : List Char) : Decidable (goodName n) := by
  unfold goodName
  infer_instance

theorem goodName_clean (n : List Char) (h : goodName n) :
    '\n' ∉ n ∧ '\r' ∉ n ∧ ' ' ∉ n ∧ trimChars n = n := by
  obtain ⟨-, hnw, -, -, -⟩ := h
  refine ⟨fun hc => ?_, fun hc => ?_, fun hc => ?_,
    trimChars_of_all_nonws n hnw⟩ <;>
    [exact Bool.noConfusion ((hnw _ hc).symm.trans (by rfl));
     exact Bool.noConfusion ((hnw _ hc).symm.trans (by rfl));
     exact Bool.noConfusion ((hnw _ hc).symm.trans (by rfl))]

theorem joinSep_ne_nil (sep : List Char) (ps : List (List Char))
    (l : List Char) (h : ps.getLast? = some l) (hl : l ≠ []) :
    joinSep sep ps ≠ [] := by
  induction ps with
  | nil => exact Option.noConfusion h
  | cons p rest ih =>
    cases rest with
    | nil =>
      have hpl : p = l := Option.some.inj h
      cases hpl
      exact fun hc => hl hc
    | cons q rest' =>
      rw [joinSep_cons_of_ne sep p (q :: rest') (by simp)]
      have h' : (q :: rest').getLast? = some l := by
        rw [← List.getLast?_cons_cons (a := p)]
        exact h
      intro hc
      rcases List.append_eq_nil.1 hc with ⟨-, hc2⟩
      exact ih h' hc2

theorem joinSep_getLast (sep : List Char) (ps : List (List Char))
    (l : List Char) (h : ps.getLast? = some l) (hl : l ≠ []) :
    (joinSep sep ps).getLast? = l.getLast? := by
  induction ps with
  | nil => exact Option.noConfusion h
  | cons p rest ih =>
    cases rest with
    | nil =>
      have : p = l := Option.some.inj h
      rw [show joinSep sep [p] = p from rfl, this]
    | cons q rest' =>
      have h' : (q :: rest').getLast? = some l := by
        rw [← List.getLast?_cons_cons (a := p)]
        exact h
      rw [joinSep_cons_of_ne sep p (q :: rest') (by simp),
        List.append_assoc,
        List.getLast?_append_of_ne_nil _
          (fun hc => joinSep_ne_nil sep _ l h' hl
            (List.append_eq_nil.1 hc).2),
        List.getLast?_append_of_ne_nil _ (joinSep_ne_nil sep _ l h' hl)]
      exact ih h'

theorem splitOnChar_joinSep (c : Char) (ps : List (List Char))
    (h : ∀ p ∈ ps, c ∉ p) (hne : ps ≠ []) :
    splitOnChar c (joinSep [c] ps) = ps := by
  induction ps with
  | nil => exact absurd rfl hne
  | cons p rest ih =>
    cases rest with
    | nil =>
      exact splitOnChar_of_not_mem c p (h p (List.mem_cons_self p []))
    | cons q rest' =>
      rw [joinSep_cons_of_ne [c] p (q :: rest') (by simp),
        show p ++ [c] ++ joinSep [c] (q :: rest') =
          p ++ c :: joinSep [c] (q :: rest') by simp,
        splitOnChar_append_cons c _ _ (h p (List.mem_cons_self p _)),
        ih (fun x hx => h x (List.mem_cons_of_mem p hx)) (by simp)]

/-- `parse_xy_position` inverts the formatter's `{}x{}` rendering for
i32-range coordinates. -/
theorem parse_xy_formatted (x y : Int)
    (hx1 : -(2 ^ 31) ≤ x) (hx2 : x ≤ 2 ^ 31 - 1)
    (hy1 : -(2 ^ 31) ≤ y) (hy2 : y ≤ 2 ^ 31 - 1) :
    parse_xy_position (intRepr x ++ 'x' :: intRepr y) = some (x, y) := by
  unfold parse_xy_position
  rw [splitOnceChar_append_cons 'x' _ _ (not_mem_intRepr x).2.2.1]
  show (match parseI32 (trimChars (intRepr x)),
      parseI32 (trimChars (intRepr y)) with
    | some a, some b => some (a, b)
    | _, _ => none) = some (x, y)
  rw [trimChars_of_all_nonws _ (fun c hc => (intRepr_facts x c hc).1),
    trimChars_of_all_nonws _ (fun c hc => (intRepr_facts y c hc).1),
    parseI32_intRepr x hx1 hx2, parseI32_intRepr y hy1 hy2]

theorem hyprModeStr_mem (m : WlMonitor) :
    ∀ c ∈ hyprModeStr m, c ∈ decDigits ∨ c = '-' ∨ c = 'x' ∨ c = '@' := by
  unfold hyprModeStr
  intro c hc
  rcases List.mem_append.1 hc with h | h
  · rcases List.mem_append.1 h with h' | h'
    · rcases intRepr_mem _ c h' with h'' | h''
      · exact Or.inl h''
      · exact Or.inr (Or.inl h'')
    · rcases List.mem_cons.1 h' with h'' | h''
      · exact Or.inr (Or.inr (Or.inl h''))
      · rcases intRepr_mem _ c h'' with h3 | h3
        · exact Or.inl h3
        · exact Or.inr (Or.inl h3)
  · rcases List.mem_cons.1 h with h' | h'
    · exact Or.inr (Or.inr (Or.inr h'))
    · rcases intRepr_mem _ c h' with h3 | h3
      · exact Or.inl h3
      · exact Or.inr (Or.inl h3)

theorem hyprPosStr_mem (m : WlMonitor) :
    ∀ c ∈ hyprPosStr m, c ∈ decDigits ∨ c = '-' ∨ c = 'x' := by
  unfold hyprPosStr
  intro c hc
  rcases List.mem_append.1 hc with h | h
  · rcases intRepr_mem _ c h with h' | h'
    · exact Or.inl h'
    · exact Or.inr (Or.inl h')
  · rcases List.mem_cons.1 h with h | h
    · exact Or.inr (Or.inr h)
    · rcases intRepr_mem _ c h with h' | h'
      · exact Or.inl h'
      · exact Or.inr (Or.inl h')

theorem hyprModeStr_facts (m : WlMonitor) :
    (∀ c ∈ hyprModeStr m, wsChar c = false) ∧ ',' ∉ hyprModeStr m ∧
      '\n' ∉ hyprModeStr m ∧ '\r' ∉ hyprModeStr m ∧
      hyprModeStr m ≠ "disable".toList := by
  refine ⟨fun c hc => ?_, fun hc => ?_, fun hc => ?_, fun hc => ?_,
    fun hc => ?_⟩
  · rcases hyprModeStr_mem m c hc with h | h | h | h
    · exact (mem_decDigits_facts c h).2.1
    · rw [h]
      rfl
    · rw [h]
      rfl
    · rw [h]
      rfl
  · exact absurd (hyprModeStr_mem m _ hc) (by decide)
  · exact absurd (hyprModeStr_mem m _ hc) (by decide)
  · exact absurd (hyprModeStr_mem m _ hc) (by decide)
  · have : '@' ∈ hyprModeStr m := by
      unfold hyprModeStr
      simp
    rw [hc] at this
    exact absurd this (by decide)

theorem hyprPosStr_facts (m : WlMonitor) :
    (∀ c ∈ hyprPosStr m, wsChar c = false) ∧ ',' ∉ hyprPosStr m ∧
      '\n' ∉ hyprPosStr m ∧ '\r' ∉ hyprPosStr m ∧
      hyprPosStr m ≠ "disable".toList := by
  refine ⟨fun c hc => ?_, fun hc => ?_, fun hc => ?_, fun hc => ?_,
    fun hc => ?_⟩
  · rcases hyprPosStr_mem m c hc with h | h | h
    · exact (mem_decDigits_facts c h).2.1
    · rw [h]
      rfl
    · rw [h]
      rfl
  · exact absurd (hyprPosStr_mem m _ hc) (by decide)
  · exact absurd (hyprPosStr_mem m _ hc) (by decide)
  · exact absurd (hyprPosStr_mem m _ hc) (by decide)
  · have : 'x' ∈ hyprPosStr m := by
      unfold hyprPosStr
      simp
    rw [hc] at this
    exact absurd this (by decide)

theorem natDigits_facts (n : Nat) :
    (∀ c ∈ natDigits n, wsChar c = false) ∧ ',' ∉ natDigits n ∧
      '\n' ∉ natDigits n ∧ '\r' ∉ natDigits n ∧
      natDigits n ≠ "disable".toList := by
  refine ⟨fun c hc => (mem_decDigits_facts c
      (natDigits_mem_decDigits n c hc)).2.1,
    fun hc => ?_, fun hc => ?_, fun hc => ?_, fun hc => ?_⟩
  · exact absurd (natDigits_mem_decDigits n _ hc) (by decide)
  · exact absurd (natDigits_mem_decDigits n _ hc) (by decide)
  · exact absurd (natDigits_mem_decDigits n _ hc) (by decide)
  · have : 'd' ∈ natDigits n := by
      rw [hc]
      decide
    exact absurd (natDigits_mem_decDigits n _ this) (by decide)

theorem dropSpaceEq_eq_cons (c : Char) (l : List Char) (hc1 : c ≠ ' ')
    (hc2 : c ≠ '=') :
    dropSpaceEq (' ' :: '=' :: ' ' :: c :: l) = c :: l := by
  unfold dropSpaceEq
  rw [List.dropWhile_cons_of_pos (by decide),
    List.dropWhile_cons_of_pos (by decide),
    List.dropWhile_cons_of_pos (by decide),
    List.dropWhile_cons_of_neg (by simp [hc1, hc2])]

/-- A line that does not start (after trimming) with `monitor` yields no
directive. -/
theorem hyprDirectivePos_not_monitor (nm line : List Char)
    (h : begins "monitor".toList (trimChars line) = false) :
    hyprDirectivePos nm line = none := by
  unfold hyprDirectivePos
  rw [if_neg (fun hc => by rw [h] at hc; exact Bool.noConfusion hc.1)]

/-- The parser's reading of one formatted monitor directive
`monitor = {name},{parts}`: with a well-formed name and comma-free
fields, the directive yields the parsed second field exactly when the
name matches and no field is `disable`. -/
theorem hyprDirectivePos_formatted (nm n : List Char)
    (parts tparts : List (List Char)) (hn : goodName n)
    (hpc : ∀ p ∈ parts, ',' ∉ p)
    (hlast : ∀ c, (joinSep [','] (n :: parts)).getLast? = some c →
      wsChar c = false)
    (htp : parts.map trimChars = tparts) :
    hyprDirectivePos nm
        ("monitor = ".toList ++ joinSep [','] (n :: parts)) =
      if nm = n ∧ "disable".toList ∉ tparts then
        (tparts.get? 1).bind parse_xy_position
      else none := by
  obtain ⟨hne, hnw, hnc, hneq, hndis⟩ := hn
  obtain ⟨c0, n', rfl⟩ : ∃ c0 n', n = c0 :: n' := by
    cases n with
    | nil => exact absurd rfl hne
    | cons a b => exact ⟨a, b, rfl⟩
  have hc0 : c0 ∈ c0 :: n' := List.mem_cons_self _ _
  have hc0ws := hnw c0 hc0
  have hc0sp : c0 ≠ ' ' := fun h => by
    rw [h] at hc0ws
    exact Bool.noConfusion hc0ws
  have hc0eq : c0 ≠ '=' := fun h => hneq (by rw [← h]; exact hc0)
  obtain ⟨rest, hrest⟩ :
      ∃ rest, joinSep [','] ((c0 :: n') :: parts) = (c0 :: n') ++ rest := by
    cases parts with
    | nil => exact ⟨[], (List.append_nil _).symm ▸ rfl⟩
    | cons p r =>
      exact ⟨[','] ++ joinSep [','] (p :: r),
        (joinSep_cons_of_ne _ _ _ (by simp)).trans
          (List.append_assoc _ _ _)⟩
  have hJne : joinSep [','] ((c0 :: n') :: parts) ≠ [] := by
    rw [hrest]
    simp
  have hJhead : ∀ c, (joinSep [','] ((c0 :: n') :: parts)).head? = some c →
      wsChar c = false := by
    rw [hrest]
    intro c hc
    rw [List.cons_append] at hc
    rw [← Option.some.inj hc]
    exact hc0ws
  have htrimJ : trimChars (joinSep [','] ((c0 :: n') :: parts)) =
      joinSep [','] ((c0 :: n') :: parts) :=
    trimChars_of_edges _ hJhead hlast
  have hmsplit : ("monitor = ".toList : List Char) =
      "monitor".toList ++ " = ".toList := by decide
  have htrimL : trimChars
        ("monitor = ".toList ++ joinSep [','] ((c0 :: n') :: parts)) =
      "monitor = ".toList ++ joinSep [','] ((c0 :: n') :: parts) := by
    apply trimChars_of_edges
    · intro c hc
      rw [show ("monitor = ".toList : List Char) =
          'm' :: "onitor = ".toList from by decide, List.cons_append] at hc
      rw [← Option.some.inj hc]
      rfl
    · intro c hc
      rw [List.getLast?_append_of_ne_nil _ hJne] at hc
      exact hlast c hc
  have hbm : begins "monitor".toList
      (trimChars ("monitor = ".toList ++
        joinSep [','] ((c0 :: n') :: parts))) = true := by
    rw [htrimL, hmsplit, List.append_assoc]
    exact begins_append _ _
  have hbh : begins "#".toList
      (trimChars ("monitor = ".toList ++
        joinSep [','] ((c0 :: n') :: parts))) = false := by
    rw [htrimL, show ("monitor = ".toList : List Char) =
        'm' :: "onitor = ".toList from by decide, List.cons_append,
      show ("#".toList : List Char) = ['#'] from by decide]
    exact begins_cons_ne '#' 'm' _ _ (by decide)
  have hdrop : (trimChars ("monitor = ".toList ++
        joinSep [','] ((c0 :: n') :: parts))).drop 7 =
      " = ".toList ++ joinSep [','] ((c0 :: n') :: parts) := by
    rw [htrimL, hmsplit, List.append_assoc,
      show (7 : Nat) = ("monitor".toList : List Char).length from by decide,
      List.drop_left]
  have hdse : dropSpaceEq
        (" = ".toList ++ joinSep [','] ((c0 :: n') :: parts)) =
      joinSep [','] ((c0 :: n') :: parts) := by
    rw [hrest, show (" = ".toList : List Char) = [' ', '=', ' '] from by
      decide]
    show dropSpaceEq (' ' :: '=' :: ' ' :: (c0 :: n' ++ rest)) = _
    rw [List.cons_append]
    exact dropSpaceEq_eq_cons c0 (n' ++ rest) hc0sp hc0eq
  have hsplit : splitOnChar ','
        (joinSep [','] ((c0 :: n') :: parts)) = (c0 :: n') :: parts :=
    splitOnChar_joinSep ',' _
      (by
        intro p hp
        rcases List.mem_cons.1 hp with h | h
        · rw [h]
          exact hnc
        · exact hpc p h)
      (by simp)
  have hmap : ((c0 :: n') :: parts).map trimChars =
      (c0 :: n') :: tparts := by
    rw [List.map_cons, trimChars_of_all_nonws _ hnw, htp]
  unfold hyprDirectivePos
  rw [hdrop, hdse, htrimJ, hsplit, hmap,
    if_pos (show _ ∧ _ from ⟨hbm, by
      rw [hbh]
      exact fun h => Bool.noConfusion h⟩)]
  by_cases hnm : nm = c0 :: n'
  · by_cases hd : "disable".toList ∈ tparts
    · rw [if_neg (fun hcc => hcc.2 (List.mem_cons_of_mem _ hd)),
        if_neg (fun hcc => hcc.2 hd)]
    · rw [if_pos ⟨by rw [hnm]; rfl, fun hmem => by
          rcases List.mem_cons.1 hmem with h | h
          · exact hndis h.symm
          · exact hd h⟩,
        if_pos ⟨hnm, hd⟩]
      rfl
  · rw [if_neg (fun hcc => hnm (Option.some.inj hcc.1).symm),
      if_neg (fun hcc => hnm hcc.1)]

theorem not_mem_append {c : Char} {A B : List Char} (hA : c ∉ A)
    (hB : c ∉ B) : c ∉ A ++ B :=
  fun h => (List.mem_append.1 h).elim hA hB

theorem not_mem_cons {c a : Char} {B : List Char} (h1 : c ≠ a)
    (hB : c ∉ B) : c ∉ a :: B :=
  fun h => (List.mem_cons.1 h).elim h1 hB

theorem trim_space_nonws (s : List Char)
    (h : ∀ c ∈ s, wsChar c = false) : trimChars (' ' :: s) = s := by
  rw [trimChars_cons_ws ' ' rfl, trimChars_of_all_nonws _ h]

/-- The base monitor line, re-read as name and comma-joined fields. -/
theorem hyprBaseLine_eq (m : WlMonitor) :
    hyprBaseLine m = "monitor = ".toList ++
      joinSep [','] [m.name, ' ' :: hyprModeStr m, ' ' :: hyprPosStr m,
        ' ' :: format_scale m.scale] := by
  rw [hyprBaseLine,
    show (", ".toList : List Char) = [','] ++ [' '] from by decide]
  simp [joinSep, List.append_assoc]

/-- The transform-suffixed monitor line as comma-joined fields. -/
theorem hyprTransformLine_eq (m : WlMonitor) :
    hyprBaseLine m ++ ", transform, ".toList ++
        natDigits (transform_to_hyprland m.transform) =
      "monitor = ".toList ++
        joinSep [','] [m.name, ' ' :: hyprModeStr m, ' ' :: hyprPosStr m,
          ' ' :: format_scale m.scale, " transform".toList,
          ' ' :: natDigits (transform_to_hyprland m.transform)] := by
  rw [hyprBaseLine,
    show (", ".toList : List Char) = [','] ++ [' '] from by decide,
    show (", transform, ".toList : List Char) =
      [','] ++ " transform".toList ++ ([','] ++ [' ']) from by decide]
  simp [joinSep, List.append_assoc]

/-- The disable line as comma-joined fields. -/
theorem hyprDisableLine_eq (m : WlMonitor) :
    "monitor = ".toList ++ m.name ++ ", disable".toList =
      "monitor = ".toList ++ joinSep [','] [m.name, " disable".toList] := by
  rw [show (", disable".toList : List Char) =
    [','] ++ " disable".toList from by decide]
  simp [joinSep, List.append_assoc]

theorem hyprBaseLine_clean (m : WlMonitor) (hg : goodName m.name) :
    '\n' ∉ hyprBaseLine m ∧ '\r' ∉ hyprBaseLine m := by
  obtain ⟨hn1, hn2, -, -⟩ := goodName_clean _ hg
  refine ⟨fun hmem => ?_, fun hmem => ?_⟩ <;>
    simp only [hyprBaseLine, List.mem_append] at hmem
  · rcases hmem with (((((((h | h) | h) | h) | h) | h) | h) | h)
    · exact absurd h (by decide)
    · exact hn1 h
    · exact absurd h (by decide)
    · exact (hyprModeStr_facts m).2.2.1 h
    · exact absurd h (by decide)
    · exact (hyprPosStr_facts m).2.2.1 h
    · exact absurd h (by decide)
    · exact (format_scale_clean m.scale).2.1 h
  · rcases hmem with (((((((h | h) | h) | h) | h) | h) | h) | h)
    · exact absurd h (by decide)
    · exact hn2 h
    · exact absurd h (by decide)
    · exact (hyprModeStr_facts m).2.2.2.1 h
    · exact absurd h (by decide)
    · exact (hyprPosStr_facts m).2.2.2.1 h
    · exact absurd h (by decide)
    · exact (format_scale_clean m.scale).2.2.1 h

theorem hyprMonitorLines_clean (m : WlMonitor) (hg : goodName m.name) :
    ∀ l ∈ hyprMonitorLines m, '\n' ∉ l ∧ stripCR l = l := by
  intro l hl
  have hb := hyprBaseLine_clean m hg
  obtain ⟨hn1, hn2, -, -⟩ := goodName_clean _ hg
  unfold hyprMonitorLines at hl
  rcases List.mem_cons.1 hl with h | h
  · subst h
    by_cases ht : m.transform = WlTransform.Normal
    · rw [if_neg (not_not_intro ht)]
      exact ⟨hb.1, stripCR_of_not_mem _ hb.2⟩
    · rw [if_pos ht]
      have h1 : '\n' ∉ hyprBaseLine m ++ ", transform, ".toList ++
          natDigits (transform_to_hyprland m.transform) :=
        not_mem_append (not_mem_append hb.1 (by decide))
          (natDigits_facts _).2.2.1
      have h2 : '\r' ∉ hyprBaseLine m ++ ", transform, ".toList ++
          natDigits (transform_to_hyprland m.transform) :=
        not_mem_append (not_mem_append hb.2 (by decide))
          (natDigits_facts _).2.2.2.1
      exact ⟨h1, stripCR_of_not_mem _ h2⟩
  · by_cases he : m.enabled = false
    · rw [if_pos he, List.mem_singleton] at h
      subst h
      have h1 : '\n' ∉ "monitor = ".toList ++ m.name ++ ", disable".toList :=
        not_mem_append (not_mem_append (by decide) hn1) (by decide)
      have h2 : '\r' ∉ "monitor = ".toList ++ m.name ++ ", disable".toList :=
        not_mem_append (not_mem_append (by decide) hn2) (by decide)
      exact ⟨h1, stripCR_of_not_mem _ h2⟩
    · rw [if_neg he] at h
      exact absurd h (List.not_mem_nil l)

theorem hyprWsLine_clean (w : WorkspaceRule) (hg : goodName w.monitor) :
    '\n' ∉ hyprWsLine w ∧ stripCR (hyprWsLine w) = hyprWsLine w := by
  obtain ⟨hn1, hn2, -, -⟩ := goodName_clean _ hg
  have hif1 : '\n' ∉ (if w.is_default = true then ",default:true".toList
      else []) := by
    cases w.is_default <;> decide
  have hif2 : '\n' ∉ (if w.is_persistent = true then
      ",persistent:true".toList else []) := by
    cases w.is_persistent <;> decide
  have hif3 : '\r' ∉ (if w.is_default = true then ",default:true".toList
      else []) := by
    cases w.is_default <;> decide
  have hif4 : '\r' ∉ (if w.is_persistent = true then
      ",persistent:true".toList else []) := by
    cases w.is_persistent <;> decide
  have h1 : '\n' ∉ hyprWsLine w := by
    unfold hyprWsLine
    exact not_mem_append (not_mem_append (not_mem_append (not_mem_append
      (not_mem_append (by decide) (natDigits_facts _).2.2.1) (by decide))
      hn1) hif1) hif2
  have h2 : '\r' ∉ hyprWsLine w := by
    unfold hyprWsLine
    exact not_mem_append (not_mem_append (not_mem_append (not_mem_append
      (not_mem_append (by decide) (natDigits_facts _).2.2.2.1) (by decide))
      hn2) hif3) hif4
  exact ⟨h1, stripCR_of_not_mem _ h2⟩

/-- Workspace lines are not monitor directives. -/
theorem hyprWsLine_none (nm : List Char) (w : WorkspaceRule)
    (hg : goodName w.monitor) :
    hyprDirectivePos nm (hyprWsLine w) = none := by
  apply hyprDirectivePos_not_monitor
  have htrim : trimChars (hyprWsLine w) = hyprWsLine w := by
    apply trimChars_of_edges
    · intro c hc
      unfold hyprWsLine at hc
      simp only [List.append_assoc] at hc
      rw [show ("workspace = ".toList : List Char) =
          'w' :: "orkspace = ".toList from by decide,
        List.cons_append] at hc
      rw [← Option.some.inj hc]
      rfl
    · intro c hc
      unfold hyprWsLine at hc
      by_cases hp : w.is_persistent = true
      · rw [if_pos hp, List.getLast?_append_of_ne_nil _ (by decide),
          show (",persistent:true".toList).getLast? = some 'e' from by
            decide] at hc
        rw [← Option.some.inj hc]
        rfl
      · rw [if_neg hp, List.append_nil] at hc
        by_cases hd : w.is_default = true
        · rw [if_pos hd, List.getLast?_append_of_ne_nil _ (by decide),
            show (",default:true".toList).getLast? = some 'e' from by
              decide] at hc
          rw [← Option.some.inj hc]
          rfl
        · rw [if_neg hd, List.append_nil,
            List.getLast?_append_of_ne_nil _ hg.1] at hc
          exact hg.2.1 c (List.mem_of_mem_getLast? hc)
  rw [htrim]
  unfold hyprWsLine
  simp only [List.append_assoc]
  rw [show ("workspace = ".toList : List Char) =
      'w' :: "orkspace = ".toList from by decide, List.cons_append,
    show ("monitor".toList : List Char) = 'm' :: "onitor".toList from by
      decide]
  exact begins_cons_ne 'm' 'w' _ _ (by decide)

theorem hypr_ws_section_none (nm : List Char) (wss : List WorkspaceRule)
    (hws : ∀ w ∈ wss, goodName w.monitor) :
    (if wss = [] then [] else [] :: wss.map hyprWsLine).filterMap
      (hyprDirectivePos nm) = [] := by
  by_cases h : wss = []
  · rw [if_pos h]
    rfl
  · rw [if_neg h,
      List.filterMap_cons_none
        (hyprDirectivePos_not_monitor nm [] (by decide))]
    apply List.filterMap_eq_nil_iff.mpr
    intro l hl
    obtain ⟨w, hw, rfl⟩ := List.mem_map.1 hl
    exact hyprWsLine_none nm w (hws w hw)

theorem hyprAllLines_clean (ms : List WlMonitor)
    (wss : List WorkspaceRule)
    (hnames : ∀ m' ∈ ms, goodName m'.name)
    (hws : ∀ w ∈ wss, goodName w.monitor) :
    ∀ l ∈ hyprAllLines ms wss, '\n' ∉ l ∧ stripCR l = l := by
  intro l hl
  unfold hyprAllLines at hl
  rcases List.mem_append.1 hl with h | h
  · obtain ⟨m', hm', hlm⟩ := List.mem_flatMap.1 h
    exact hyprMonitorLines_clean m' (hnames m' hm') l hlm
  · by_cases hw : wss = []
    · rw [if_pos hw] at h
      exact absurd h (List.not_mem_nil l)
    · rw [if_neg hw] at h
      rcases List.mem_cons.1 h with h | h
      · rw [h]
        exact ⟨List.not_mem_nil _, rfl⟩
      · obtain ⟨w, hww, rfl⟩ := List.mem_map.1 h
        exact hyprWsLine_clean w (hws w hww)

/-- The lines of a persisted Hyprland config: the managed-file comment,
a blank line, then the formatter's lines. -/
theorem hypr_content_lines (ms : List WlMonitor)
    (wss : List WorkspaceRule)
    (hnames : ∀ m' ∈ ms, goodName m'.name)
    (hws : ∀ w ∈ wss, goodName w.monitor) :
    rustLines (configHeader ++ format_hyprland ms wss) =
      "# This file is managed by xwlm. Do not edit manually.".toList ::
        [] :: hyprAllLines ms wss := by
  rw [show configHeader ++ format_hyprland ms wss =
      "# This file is managed by xwlm. Do not edit manually.".toList ++
        '\n' :: ([] ++ '\n' :: format_hyprland ms wss) from by
    rw [show (configHeader : List Char) =
      "# This file is managed by xwlm. Do not edit manually.".toList ++
        ['\n', '\n'] from by decide]
    simp]
  rw [rustLines_append_newline, rustLines_append_newline,
    splitOnChar_of_not_mem '\n' _ (by decide), List.map_cons, List.map_nil,
    stripCR_of_not_mem _ (by decide)]
  rw [format_hyprland,
    rustLines_joinSep_lines (hyprAllLines ms wss)
      (hyprAllLines_clean ms wss hnames hws)]
  rfl

/-- `parse_hyprland_position` as the last directive of the file's lines
(re-derivable helper form used to read back formatted output). -/
theorem parse_hyprland_position_eq (content name : List Char) :
    parse_hyprland_position content name =
      ((rustLines content).filterMap (hyprDirectivePos name)).getLast? := by
  unfold parse_hyprland_position
  calc (rustLines content).foldl (hyprLineStep name) none
      = (rustLines content).foldl
          (fun acc l => (hyprDirectivePos name l).elim acc some) none := by
        congr 1
        funext acc l
        exact hyprLineStep_eq_elim name acc l
    _ = (((rustLines content).filterMap (hyprDirectivePos name)).getLast?).elim
          none some :=
        foldl_elim_eq_getLast (hyprDirectivePos name) (rustLines content) none
    _ = ((rustLines content).filterMap (hyprDirectivePos name)).getLast? := by
        cases ((rustLines content).filterMap (hyprDirectivePos name)).getLast? <;>
          rfl

/-- The directives contributed by one monitor's formatted lines: its
committed position when the name matches, nothing otherwise (the
disable line of a disabled monitor is skipped by the parser). -/
theorem hypr_filterMap_monitor (nm : List Char) (m : WlMonitor)
    (hg : goodName m.name)
    (hx1 : -(2 ^ 31) ≤ m.pos_x) (hx2 : m.pos_x ≤ 2 ^ 31 - 1)
    (hy1 : -(2 ^ 31) ≤ m.pos_y) (hy2 : m.pos_y ≤ 2 ^ 31 - 1) :
    (hyprMonitorLines m).filterMap (hyprDirectivePos nm) =
      if nm = m.name then [(m.pos_x, m.pos_y)] else [] := by
  have htp3 : [' ' :: hyprModeStr m, ' ' :: hyprPosStr m,
      ' ' :: format_scale m.scale].map trimChars =
      [hyprModeStr m, hyprPosStr m, format_scale m.scale] := by
    rw [List.map_cons, List.map_cons, List.map_cons, List.map_nil,
      trim_space_nonws _ (hyprModeStr_facts m).1,
      trim_space_nonws _ (hyprPosStr_facts m).1,
      trim_space_nonws _ (format_scale_nonws m.scale)]
  have hpc3 : ∀ p ∈ [' ' :: hyprModeStr m, ' ' :: hyprPosStr m,
      ' ' :: format_scale m.scale], ',' ∉ p := by
    intro p hp
    rcases List.mem_cons.1 hp with h | h
    · rw [h]
      exact not_mem_cons (by decide) (hyprModeStr_facts m).2.1
    · rcases List.mem_cons.1 h with h | h
      · rw [h]
        exact not_mem_cons (by decide) (hyprPosStr_facts m).2.1
      · rw [List.mem_singleton] at h
        rw [h]
        exact not_mem_cons (by decide) (format_scale_clean m.scale).1
  have hnd3 : "disable".toList ∉
      [hyprModeStr m, hyprPosStr m, format_scale m.scale] := by
    intro h
    rcases List.mem_cons.1 h with h | h
    · exact (hyprModeStr_facts m).2.2.2.2 h.symm
    · rcases List.mem_cons.1 h with h | h
      · exact (hyprPosStr_facts m).2.2.2.2 h.symm
      · rw [List.mem_singleton] at h
        exact format_scale_ne_disable m.scale h.symm
  have hlast3 : ∀ c, (joinSep [','] (m.name :: [' ' :: hyprModeStr m,
      ' ' :: hyprPosStr m, ' ' :: format_scale m.scale])).getLast? =
        some c → wsChar c = false := by
    intro c hc
    rw [joinSep_getLast _ _ (' ' :: format_scale m.scale) (by simp)
        (by simp),
      getLast?_cons_ne ' ' _ (format_scale_ne_nil m.scale)] at hc
    exact format_scale_nonws m.scale c (List.mem_of_mem_getLast? hc)
  have hxy : parse_xy_position (hyprPosStr m) = some (m.pos_x, m.pos_y) :=
    parse_xy_formatted m.pos_x m.pos_y hx1 hx2 hy1 hy2
  have hmain3 : hyprDirectivePos nm (hyprBaseLine m) =
      if nm = m.name then some (m.pos_x, m.pos_y) else none := by
    rw [hyprBaseLine_eq,
      hyprDirectivePos_formatted nm m.name _ _ hg hpc3 hlast3 htp3]
    by_cases hnm : nm = m.name
    · rw [if_pos ⟨hnm, hnd3⟩, if_pos hnm]
      show parse_xy_position (hyprPosStr m) = some (m.pos_x, m.pos_y)
      exact hxy
    · rw [if_neg (fun hcc => hnm hcc.1), if_neg hnm]
  have htp5 : [' ' :: hyprModeStr m, ' ' :: hyprPosStr m,
      ' ' :: format_scale m.scale, " transform".toList,
      ' ' :: natDigits (transform_to_hyprland m.transform)].map
        trimChars =
      [hyprModeStr m, hyprPosStr m, format_scale m.scale,
        "transform".toList,
        natDigits (transform_to_hyprland m.transform)] := by
    rw [List.map_cons, List.map_cons, List.map_cons, List.map_cons,
      List.map_cons, List.map_nil,
      trim_space_nonws _ (hyprModeStr_facts m).1,
      trim_space_nonws _ (hyprPosStr_facts m).1,
      trim_space_nonws _ (format_scale_nonws m.scale),
      show trimChars " transform".toList = "transform".toList from by
        decide,
      trim_space_nonws _ (natDigits_facts _).1]
  have hpc5 : ∀ p ∈ [' ' :: hyprModeStr m, ' ' :: hyprPosStr m,
      ' ' :: format_scale m.scale, " transform".toList,
      ' ' :: natDigits (transform_to_hyprland m.transform)], ',' ∉ p := by
    intro p hp
    rcases List.mem_cons.1 hp with h | h
    · rw [h]
      exact not_mem_cons (by decide) (hyprModeStr_facts m).2.1
    · rcases List.mem_cons.1 h with h | h
      · rw [h]
        exact not_mem_cons (by decide) (hyprPosStr_facts m).2.1
      · rcases List.mem_cons.1 h with h | h
        · rw [h]
          exact not_mem_cons (by decide) (format_scale_clean m.scale).1
        · rcases List.mem_cons.1 h with h | h
          · rw [h]
            decide
          · rw [List.mem_singleton] at h
            rw [h]
            exact not_mem_cons (by decide) (natDigits_facts _).2.1
  have hnd5 : "disable".toList ∉
      [hyprModeStr m, hyprPosStr m, format_scale m.scale,
        "transform".toList,
        natDigits (transform_to_hyprland m.transform)] := by
    intro h
    rcases List.mem_cons.1 h with h | h
    · exact (hyprModeStr_facts m).2.2.2.2 h.symm
    · rcases List.mem_cons.1 h with h | h
      · exact (hyprPosStr_facts m).2.2.2.2 h.symm
      · rcases List.mem_cons.1 h with h | h
        · exact format_scale_ne_disable m.scale h.symm
        · rcases List.mem_cons.1 h with h | h
          · exact absurd h (by decide)
          · rw [List.mem_singleton] at h
            exact (natDigits_facts _).2.2.2.2 h.symm
  have hlast5 : ∀ c, (joinSep [','] (m.name :: [' ' :: hyprModeStr m,
      ' ' :: hyprPosStr m, ' ' :: format_scale m.scale,
      " transform".toList,
      ' ' :: natDigits (transform_to_hyprland m.transform)])).getLast? =
        some c → wsChar c = false := by
    intro c hc
    rw [joinSep_getLast _ _
        (' ' :: natDigits (transform_to_hyprland m.transform)) (by simp)
        (by simp),
      getLast?_cons_ne ' ' _ (natDigits_ne_nil _)] at hc
    exact (natDigits_facts _).1 c (List.mem_of_mem_getLast? hc)
  have hmain5 : hyprDirectivePos nm (hyprBaseLine m ++
      ", transform, ".toList ++
      natDigits (transform_to_hyprland m.transform)) =
      if nm = m.name then some (m.pos_x, m.pos_y) else none := by
    rw [hyprTransformLine_eq,
      hyprDirectivePos_formatted nm m.name _ _ hg hpc5 hlast5 htp5]
    by_cases hnm : nm = m.name
    · rw [if_pos ⟨hnm, hnd5⟩, if_pos hnm]
      show parse_xy_position (hyprPosStr m) = some (m.pos_x, m.pos_y)
      exact hxy
    · rw [if_neg (fun hcc => hnm hcc.1), if_neg hnm]
  have hdisnone : hyprDirectivePos nm
      ("monitor = ".toList ++ m.name ++ ", disable".toList) = none := by
    rw [hyprDisableLine_eq,
      hyprDirectivePos_formatted nm m.name [" disable".toList]
        ["disable".toList] hg
        (by
          intro p hp
          rw [List.mem_singleton] at hp
          rw [hp]
          decide)
        (by
          intro c hc
          rw [joinSep_getLast _ _ " disable".toList (by simp) (by decide),
            show (" disable".toList).getLast? = some 'e' from by decide]
            at hc
          rw [← Option.some.inj hc]
          rfl)
        (by decide),
      if_neg (fun hcc => hcc.2 (List.mem_singleton.mpr rfl))]
  have hdispart : (if m.enabled = false then
      ["monitor = ".toList ++ m.name ++ ", disable".toList]
      else []).filterMap (hyprDirectivePos nm) = [] := by
    by_cases he : m.enabled = false
    · rw [if_pos he, List.filterMap_cons_none hdisnone]
      rfl
    · rw [if_neg he]
      rfl
  have hmainval : hyprDirectivePos nm
      (if m.transform ≠ WlTransform.Normal then
        hyprBaseLine m ++ ", transform, ".toList ++
          natDigits (transform_to_hyprland m.transform)
      else hyprBaseLine m) =
      if nm = m.name then some (m.pos_x, m.pos_y) else none := by
    by_cases ht : m.transform = WlTransform.Normal
    · rw [if_neg (not_not_intro ht)]
      exact hmain3
    · rw [if_pos ht]
      exact hmain5
  unfold hyprMonitorLines
  by_cases hnm : nm = m.name
  · rw [List.filterMap_cons_some (by rw [hmainval, if_pos hnm]), hdispart,
      if_pos hnm]
  · rw [List.filterMap_cons_none (by rw [hmainval, if_neg hnm]), hdispart,
      if_neg hnm]

theorem hypr_filterMap_flatMap (nm : List Char) (ms : List WlMonitor)
    (h : ∀ m' ∈ ms, goodName m'.name ∧
      (-(2 ^ 31) ≤ m'.pos_x ∧ m'.pos_x ≤ 2 ^ 31 - 1 ∧
       -(2 ^ 31) ≤ m'.pos_y ∧ m'.pos_y ≤ 2 ^ 31 - 1)) :
    (ms.flatMap hyprMonitorLines).filterMap (hyprDirectivePos nm) =
      ms.flatMap (fun m' =>
        if nm = m'.name then [(m'.pos_x, m'.pos_y)] else []) := by
  induction ms with
  | nil => rfl
  | cons m0 rest ih =>
    obtain ⟨hg, hr1, hr2, hr3, hr4⟩ := h m0 (List.mem_cons_self _ _)
    show (hyprMonitorLines m0 ++
      rest.flatMap hyprMonitorLines).filterMap (hyprDirectivePos nm) = _
    rw [List.filterMap_append,
      hypr_filterMap_monitor nm m0 hg hr1 hr2 hr3 hr4,
      ih (fun m' hm' => h m' (List.mem_cons_of_mem _ hm'))]
    rfl

theorem flatMap_name_select (ms : List WlMonitor) (m : WlMonitor)
    (hm : m ∈ ms) (hnd : (ms.map WlMonitor.name).Nodup) :
    ms.flatMap (fun m' =>
      if m.name = m'.name then [(m'.pos_x, m'.pos_y)] else []) =
      [(m.pos_x, m.pos_y)] := by
  induction ms with
  | nil => exact absurd hm (List.not_mem_nil m)
  | cons m0 rest ih =>
    rw [List.map_cons, List.nodup_cons] at hnd
    show (if m.name = m0.name then [(m0.pos_x, m0.pos_y)] else []) ++
      rest.flatMap (fun m' =>
        if m.name = m'.name then [(m'.pos_x, m'.pos_y)] else []) = _
    rcases List.mem_cons.1 hm with heq | hmr
    · rw [← heq, if_pos rfl]
      have hrest : rest.flatMap (fun m' =>
          if m.name = m'.name then [(m'.pos_x, m'.pos_y)] else []) =
          [] := by
        apply List.flatMap_eq_nil_iff.mpr
        intro m' hm'
        rw [if_neg (fun heq2 => hnd.1 (by
          rw [← heq, heq2]
          exact List.mem_map_of_mem _ hm'))]
      rw [hrest, List.append_nil]
    · have hne : m.name ≠ m0.name := fun heq =>
        hnd.1 (by
          rw [← heq]
          exact List.mem_map_of_mem _ hmr)
      rw [if_neg hne, List.nil_append, ih hmr hnd.2]

/-- Claim C3, amended: with well-formed distinct output names (nonempty,
no whitespace, comma or equals sign, not the keyword `disable`),
well-formed workspace target names, and i32-range positions, formatting
an arrangement for Hyprland and re-parsing the produced file for any
output's saved position returns exactly that output's committed
position.  The unrestricted claim fails for names the dialect cannot
quote, e.g. a name containing a comma. -/
theorem c3_round_trip_amended (ms : List WlMonitor)
    (wss : List WorkspaceRule) (m : WlMonitor) (hm : m ∈ ms)
    (hnames : ∀ m' ∈ ms, goodName m'.name)
    (hws : ∀ w ∈ wss, goodName w.monitor)
    (hnd : (ms.map WlMonitor.name).Nodup)
    (hrange : ∀ m' ∈ ms,
      -(2 ^ 31) ≤ m'.pos_x ∧ m'.pos_x ≤ 2 ^ 31 - 1 ∧
      -(2 ^ 31) ≤ m'.pos_y ∧ m'.pos_y ≤ 2 ^ 31 - 1) :
    parse_hyprland_position (configHeader ++ format_hyprland ms wss)
      m.name = some (m.pos_x, m.pos_y) := by
  rw [parse_hyprland_position_eq, hypr_content_lines ms wss hnames hws,
    List.filterMap_cons_none
      (hyprDirectivePos_not_monitor _ _ (by decide)),
    List.filterMap_cons_none
      (hyprDirectivePos_not_monitor _ _ (by decide))]
  unfold hyprAllLines
  rw [List.filterMap_append,
    hypr_filterMap_flatMap m.name ms
      (fun m' hm' => ⟨hnames m' hm', hrange m' hm'⟩),
    hypr_ws_section_none m.name wss hws, List.append_nil,
    flatMap_name_select ms m hm hnd]
  rfl

def c3CexMon : WlMonitor :=
  ⟨"a,b".toList, true, 0, 0, [⟨1920, 1080, 60, true, false⟩], 1,
    WlTransform.Normal, 1920, 1080⟩

/-- Claim C3 fails on the code as stated for every list of outputs: an
enabled output whose name contains a comma formats to a line whose first
comma-separated field is only part of the name, so re-parsing its saved
position finds nothing instead of the committed `(0, 0)`. -/
theorem c3_round_trip_counterexample :
    c3CexMon.enabled = true ∧
    parse_hyprland_position
      (configHeader ++ format_hyprland [c3CexMon] []) c3CexMon.name =
      none := by
  exact ⟨rfl, by decide⟩

def c3WitMonA : WlMonitor :=
  ⟨"DP-1".toList, true, 1920, 0, [⟨2560, 1440, 59, true, false⟩], 1,
    WlTransform.Normal, 2560, 1440⟩

def c3WitMonB : WlMonitor :=
  ⟨"eDP-1".toList, false, -1920, 200, [⟨1920, 1080, 144, true, false⟩],
    (3 : ℚ) / 2, WlTransform.Rotate90, 1920, 1080⟩

/-- The amended C3 statement at a concrete two-output arrangement with a
workspace rule, a transform suffix, a fractional scale and a disable
line in the formatted file. -/
theorem c3_round_trip_amended_witness :
    c3WitMonB ∈ [c3WitMonA, c3WitMonB] ∧
    ([c3WitMonA, c3WitMonB].map WlMonitor.name).Nodup ∧
    parse_hyprland_position
      (configHeader ++ format_hyprland [c3WitMonA, c3WitMonB]
        [⟨1, "DP-1".toList, true, false⟩]) c3WitMonB.name =
      some (c3WitMonB.pos_x, c3WitMonB.pos_y) :=
  ⟨List.mem_cons_of_mem _ (List.mem_cons_self _ _), by decide,
    c3_round_trip_amended [c3WitMonA, c3WitMonB]
      [⟨1, "DP-1".toList, true, false⟩] c3WitMonB
      (List.mem_cons_of_mem _ (List.mem_cons_self _ _)) (by decide)
      (by decide) (by decide) (by decide)⟩

/-! ## Reading the persisted text back: header, trailing newline, and
the order in which output directives appear -/

/-- The output a Hyprland `monitor = NAME, …` line is about. -/
def hyprSubject (line : List Char) : Option (List Char) :=
  if begins "monitor = ".toList line then
    some ((line.drop 10).takeWhile (fun c => c ≠ ','))
  else none

/-- The output a Sway `output NAME …` line is about. -/
def swaySubject (line : List Char) : Option (List Char) :=
  if begins "output ".toList line then
    some ((line.drop 7).takeWhile (fun c => c ≠ ' '))
  else none

/-- The output a River `wlr-randr --output NAME …` line is about. -/
def riverSubject (line : List Char) : Option (List Char) :=
  if begins "wlr-randr --output ".toList line then
    some ((line.drop 19).takeWhile (fun c => c ≠ ' '))
  else none

def hyprSubjects (content : List Char) : List (List Char) :=
  (rustLines content).filterMap hyprSubject

def swaySubjects (content : List Char) : List (List Char) :=
  (rustLines content).filterMap swaySubject

def riverSubjects (content : List Char) : List (List Char) :=
  (rustLines content).filterMap riverSubject

theorem rustLines_cons_newline (X : List Char) :
    rustLines ('\n' :: X) = [] :: rustLines X := by
  show rustLines ([] ++ '\n' :: X) = _
  rw [rustLines_append_newline]
  rfl

/-- Every persisted config is the header comment, a blank line, then the
formatter's text. -/
theorem rustLines_header (X : List Char) :
    rustLines (configHeader ++ X) =
      "# This file is managed by xwlm. Do not edit manually.".toList ::
        [] :: rustLines X := by
  rw [show configHeader ++ X =
      "# This file is managed by xwlm. Do not edit manually.".toList ++
        '\n' :: ('\n' :: X) from by
    rw [show (configHeader : List Char) =
      "# This file is managed by xwlm. Do not edit manually.".toList ++
        ['\n', '\n'] from by decide]
    simp]
  rw [rustLines_append_newline, rustLines_cons_newline,
    splitOnChar_of_not_mem '\n' _ (by decide), List.map_cons, List.map_nil,
    stripCR_of_not_mem _ (by decide)]
  rfl

/-- A formatter's join of items with a final empty element, prefixed by
the header, always ends in a newline. -/
theorem getLast_join_sep (sep : List Char) (L : List (List Char))
    (hsep : sep.getLast? = some '\n') :
    (configHeader ++ joinSep sep (L ++ [[]])).getLast? = some '\n' := by
  by_cases hL : L = []
  · rw [hL]
    show (configHeader ++ []).getLast? = some '\n'
    rw [List.append_nil]
    decide
  · rw [joinSep_append_empty sep L hL, ← List.append_assoc,
      List.getLast?_append_of_ne_nil _ (fun hc => by
        rw [hc] at hsep
        exact Option.noConfusion hsep)]
    exact hsep

/-- Each River line names its monitor. -/
theorem riverSubject_line (m : WlMonitor) (hg : goodName m.name) :
    riverSubject (riverLine m) = some m.name := by
  obtain ⟨-, hnw, -, -, -⟩ := hg
  have hname : ∀ c ∈ m.name, (fun c => decide (c ≠ ' ')) c = true := by
    intro c hc
    have := hnw c hc
    refine decide_eq_true (fun h => ?_)
    rw [h] at this
    exact Bool.noConfusion this
  unfold riverLine riverSubject
  by_cases he : m.enabled = false
  · rw [if_pos he, List.append_assoc,
      if_pos (begins_append _ _),
      show (19 : Nat) = ("wlr-randr --output ".toList : List Char).length
        from by decide,
      List.drop_left,
      show (" --off".toList : List Char) = ' ' :: "--off".toList from by
        decide,
      takeWhile_append_cons _ m.name ' ' _ hname (by decide)]
  · rw [if_neg he]
    simp only [List.append_assoc]
    rw [if_pos (begins_append _ _),
      show (19 : Nat) = ("wlr-randr --output ".toList : List Char).length
        from by decide,
      List.drop_left,
      show (" --mode ".toList : List Char) = ' ' :: "--mode ".toList from
        by decide,
      List.cons_append,
      takeWhile_append_cons _ m.name ' ' _ hname (by decide)]

theorem riverLine_clean (m : WlMonitor) (hg : goodName m.name) :
    '\n' ∉ riverLine m ∧ stripCR (riverLine m) = riverLine m := by
  obtain ⟨hnl, hcr, -, -⟩ := goodName_clean _ hg
  have h1 : '\n' ∉ riverLine m := by
    unfold riverLine
    by_cases he : m.enabled = false
    · rw [if_pos he]
      exact not_mem_append (not_mem_append (by decide) hnl) (by decide)
    · rw [if_neg he]
      exact not_mem_append (not_mem_append (not_mem_append (not_mem_append
        (not_mem_append (not_mem_append (not_mem_append (not_mem_append
          (not_mem_append (not_mem_append (not_mem_append (not_mem_append
            (by decide) hnl) (by decide)) (not_mem_intRepr _).2.1)
            (not_mem_cons (by decide) (not_mem_intRepr _).2.1))
            (not_mem_cons (by decide) (not_mem_intRepr _).2.1))
            (by decide)) (not_mem_intRepr _).2.1)
            (not_mem_cons (by decide) (not_mem_intRepr _).2.1))
            (by decide)) (format_scale_clean _).2.1) (by decide))
        (transform_to_sway_clean _).1
  have h2 : '\r' ∉ riverLine m := by
    unfold riverLine
    by_cases he : m.enabled = false
    · rw [if_pos he]
      exact not_mem_append (not_mem_append (by decide) hcr) (by decide)
    · rw [if_neg he]
      exact not_mem_append (not_mem_append (not_mem_append (not_mem_append
        (not_mem_append (not_mem_append (not_mem_append (not_mem_append
          (not_mem_append (not_mem_append (not_mem_append (not_mem_append
            (by decide) hcr) (by decide)) (not_mem_intRepr _).2.2.2)
            (not_mem_cons (by decide) (not_mem_intRepr _).2.2.2))
            (not_mem_cons (by decide) (not_mem_intRepr _).2.2.2))
            (by decide)) (not_mem_intRepr _).2.2.2)
            (not_mem_cons (by decide) (not_mem_intRepr _).2.2.2))
            (by decide)) (format_scale_clean _).2.2.1) (by decide))
        (transform_to_sway_clean _).2.1
  exact ⟨h1, stripCR_of_not_mem _ h2⟩

theorem river_subjects_map (ms : List WlMonitor)
    (h : ∀ m ∈ ms, goodName m.name) :
    (ms.map riverLine).filterMap riverSubject = ms.map WlMonitor.name := by
  induction ms with
  | nil => rfl
  | cons m rest ih =>
    rw [List.map_cons,
      List.filterMap_cons_some
        (riverSubject_line m (h m (List.mem_cons_self _ _))),
      ih (fun m' hm' => h m' (List.mem_cons_of_mem _ hm')), List.map_cons]

theorem river_subjects (ms : List WlMonitor)
    (h : ∀ m ∈ ms, goodName m.name) :
    riverSubjects (configHeader ++ format_river ms) =
      ms.map WlMonitor.name := by
  unfold riverSubjects
  rw [rustLines_header,
    List.filterMap_cons_none (show riverSubject _ = none from by decide),
    List.filterMap_cons_none (show riverSubject [] = none from by decide),
    format_river,
    rustLines_joinSep_lines _ (by
      intro l hl
      rcases List.mem_cons.1 hl with h' | h'
      · rw [h']
        exact ⟨by decide, by decide⟩
      · obtain ⟨m, hm, rfl⟩ := List.mem_map.1 h'
        exact riverLine_clean m (h m hm)),
    List.filterMap_cons_none (show riverSubject "#!/bin/sh".toList = none
      from by decide),
    river_subjects_map ms h]

theorem hyprSubject_directive (n : List Char) (parts : List (List Char))
    (hnc : ',' ∉ n) (hne : parts ≠ []) :
    hyprSubject ("monitor = ".toList ++ joinSep [','] (n :: parts)) =
      some n := by
  have hname : ∀ c ∈ n, (fun c => decide (c ≠ ',')) c = true := by
    intro c hc
    exact decide_eq_true (fun h => hnc (by rw [← h]; exact hc))
  unfold hyprSubject
  rw [if_pos (begins_append _ _),
    show (10 : Nat) = ("monitor = ".toList : List Char).length from by
      decide,
    List.drop_left]
  cases parts with
  | nil => exact absurd rfl hne
  | cons p r =>
    rw [joinSep_cons_of_ne _ _ _ (by simp), List.append_assoc,
      show ([','] : List Char) ++ joinSep [','] (p :: r) =
        ',' :: joinSep [','] (p :: r) from rfl,
      takeWhile_append_cons _ n ',' _ hname (by decide)]

theorem hyprSubjects_monitor (m : WlMonitor) (hg : goodName m.name) :
    (hyprMonitorLines m).filterMap hyprSubject =
      m.name :: (if m.enabled = true then [] else [m.name]) := by
  have hnc := hg.2.2.1
  have hmain : hyprSubject (if m.transform ≠ WlTransform.Normal then
      hyprBaseLine m ++ ", transform, ".toList ++
        natDigits (transform_to_hyprland m.transform)
    else hyprBaseLine m) = some m.name := by
    by_cases ht : m.transform = WlTransform.Normal
    · rw [if_neg (not_not_intro ht), hyprBaseLine_eq]
      exact hyprSubject_directive m.name _ hnc (by simp)
    · rw [if_pos ht, hyprTransformLine_eq]
      exact hyprSubject_directive m.name _ hnc (by simp)
  unfold hyprMonitorLines
  rw [List.filterMap_cons_some hmain]
  by_cases he : m.enabled = false
  · rw [if_pos he,
      List.filterMap_cons_some (by
        rw [hyprDisableLine_eq]
        exact hyprSubject_directive m.name _ hnc (by simp)),
      he]
    rfl
  · rw [if_neg he]
    have he' : m.enabled = true := by
      cases hb : m.enabled
      · exact absurd hb he
      · rfl
    rw [he']
    rfl

theorem hyprSubjects_flatMap (ms : List WlMonitor)
    (h : ∀ m ∈ ms, goodName m.name) :
    (ms.flatMap hyprMonitorLines).filterMap hyprSubject =
      ms.flatMap (fun m =>
        m.name :: (if m.enabled = true then [] else [m.name])) := by
  induction ms with
  | nil => rfl
  | cons m rest ih =>
    show (hyprMonitorLines m ++
      rest.flatMap hyprMonitorLines).filterMap hyprSubject = _
    rw [List.filterMap_append,
      hyprSubjects_monitor m (h m (List.mem_cons_self _ _)),
      ih (fun m' hm' => h m' (List.mem_cons_of_mem _ hm'))]
    rfl

theorem hyprSubject_wsline (w : WorkspaceRule) :
    hyprSubject (hyprWsLine w) = none := by
  have hb : begins "monitor = ".toList (hyprWsLine w) = false := by
    unfold hyprWsLine
    simp only [List.append_assoc]
    rw [show ("workspace = ".toList : List Char) =
        'w' :: "orkspace = ".toList from by decide, List.cons_append,
      show ("monitor = ".toList : List Char) =
        'm' :: "onitor = ".toList from by decide]
    exact begins_cons_ne 'm' 'w' _ _ (by decide)
  unfold hyprSubject
  rw [hb]
  rfl

theorem hyprSubjects_ws_section (wss : List WorkspaceRule) :
    (if wss = [] then [] else [] :: wss.map hyprWsLine).filterMap
      hyprSubject = [] := by
  by_cases h : wss = []
  · rw [if_pos h]
    rfl
  · rw [if_neg h,
      List.filterMap_cons_none (show hyprSubject [] = none from by decide)]
    apply List.filterMap_eq_nil_iff.mpr
    intro l hl
    obtain ⟨w, -, rfl⟩ := List.mem_map.1 hl
    exact hyprSubject_wsline w

/-- The Hyprland formatter emits monitor directives in input order: one
per output, plus a second (disable) directive for a disabled output. -/
theorem hypr_subjects (ms : List WlMonitor) (wss : List WorkspaceRule)
    (hnames : ∀ m ∈ ms, goodName m.name)
    (hws : ∀ w ∈ wss, goodName w.monitor) :
    hyprSubjects (configHeader ++ format_hyprland ms wss) =
      ms.flatMap (fun m =>
        m.name :: (if m.enabled = true then [] else [m.name])) := by
  unfold hyprSubjects
  rw [hypr_content_lines ms wss hnames hws,
    List.filterMap_cons_none (show hyprSubject _ = none from by decide),
    List.filterMap_cons_none (show hyprSubject [] = none from by decide)]
  unfold hyprAllLines
  rw [List.filterMap_append, hyprSubjects_flatMap ms hnames,
    hyprSubjects_ws_section wss, List.append_nil]

theorem swaySubject_none_of (line : List Char)
    (hb : begins "output ".toList line = false) :
    swaySubject line = none := by
  unfold swaySubject
  rw [hb]
  rfl

/-- The Sway block of an enabled output, line by line. -/
theorem swayBlock_eq (m : WlMonitor) (he : ¬ m.enabled = false) :
    swayMonitorBlock m =
      ("output ".toList ++ m.name ++ " \x7b".toList) ++ '\n' ::
      (("    mode ".toList ++ intRepr (current_mode m).1 ++
        'x' :: intRepr (current_mode m).2.1 ++
        '@' :: intRepr (current_mode m).2.2 ++ "Hz".toList) ++ '\n' ::
      (("    pos ".toList ++ intRepr m.pos_x ++ ' ' :: intRepr m.pos_y)
        ++ '\n' ::
      (("    scale ".toList ++ format_scale m.scale) ++ '\n' ::
      (("    transform ".toList ++ transform_to_sway m.transform) ++
        '\n' :: "\x7d".toList)))) := by
  rw [swayMonitorBlock, if_neg he,
    show (" \x7b\n    mode ".toList : List Char) =
      " \x7b".toList ++ '\n' :: "    mode ".toList from by decide,
    show ("Hz\n    pos ".toList : List Char) =
      "Hz".toList ++ '\n' :: "    pos ".toList from by decide,
    show ("\n    scale ".toList : List Char) =
      '\n' :: "    scale ".toList from by decide,
    show ("\n    transform ".toList : List Char) =
      '\n' :: "    transform ".toList from by decide,
    show ("\n\x7d".toList : List Char) = '\n' :: "\x7d".toList from by
      decide]
  simp [List.append_assoc]

theorem sway_block_subjects (m : WlMonitor) (hg : goodName m.name) :
    ((splitOnChar '\n' (swayMonitorBlock m)).map stripCR).filterMap
      swaySubject = [m.name] := by
  obtain ⟨hnl, hcr, -, -⟩ := goodName_clean _ hg
  have hname : ∀ c ∈ m.name, (fun c => decide (c ≠ ' ')) c = true := by
    intro c hc
    have := hg.2.1 c hc
    refine decide_eq_true (fun h => ?_)
    rw [h] at this
    exact Bool.noConfusion this
  by_cases he : m.enabled = false
  · have hblock : swayMonitorBlock m =
        "output ".toList ++ m.name ++ " disable".toList := by
      rw [swayMonitorBlock, if_pos he]
    have h1 : '\n' ∉ swayMonitorBlock m := by
      rw [hblock]
      exact not_mem_append (not_mem_append (by decide) hnl) (by decide)
    have h2 : '\r' ∉ swayMonitorBlock m := by
      rw [hblock]
      exact not_mem_append (not_mem_append (by decide) hcr) (by decide)
    rw [splitOnChar_of_not_mem '\n' _ h1, List.map_cons, List.map_nil,
      stripCR_of_not_mem _ h2]
    rw [List.filterMap_cons_some (by
      rw [hblock, List.append_assoc]
      unfold swaySubject
      rw [if_pos (begins_append _ _),
        show (7 : Nat) = ("output ".toList : List Char).length from by
          decide,
        List.drop_left,
        show (" disable".toList : List Char) = ' ' :: "disable".toList
          from by decide,
        takeWhile_append_cons _ m.name ' ' _ hname (by decide)])]
    rfl
  · have h2 : '\n' ∉ "output ".toList ++ m.name ++ " \x7b".toList :=
      not_mem_append (not_mem_append (by decide) hnl) (by decide)
    have h3 : '\n' ∉ "    mode ".toList ++ intRepr (current_mode m).1 ++
        'x' :: intRepr (current_mode m).2.1 ++
        '@' :: intRepr (current_mode m).2.2 ++ "Hz".toList :=
      not_mem_append (not_mem_append (not_mem_append (not_mem_append
        (by decide) (not_mem_intRepr _).2.1)
        (not_mem_cons (by decide) (not_mem_intRepr _).2.1))
        (not_mem_cons (by decide) (not_mem_intRepr _).2.1)) (by decide)
    have h4 : '\n' ∉ "    pos ".toList ++ intRepr m.pos_x ++
        ' ' :: intRepr m.pos_y :=
      not_mem_append (not_mem_append (by decide) (not_mem_intRepr _).2.1)
        (not_mem_cons (by decide) (not_mem_intRepr _).2.1)
    have h5 : '\n' ∉ "    scale ".toList ++ format_scale m.scale :=
      not_mem_append (by decide) (format_scale_clean _).2.1
    have h6 : '\n' ∉ "    transform ".toList ++ transform_to_sway
        m.transform :=
      not_mem_append (by decide) (transform_to_sway_clean _).1
    rw [swayBlock_eq m he,
      splitOnChar_append_cons '\n' _ _ h2,
      splitOnChar_append_cons '\n' _ _ h3,
      splitOnChar_append_cons '\n' _ _ h4,
      splitOnChar_append_cons '\n' _ _ h5,
      splitOnChar_append_cons '\n' _ _ h6,
      splitOnChar_of_not_mem '\n' _ (by decide)]
    rw [List.map_cons, List.map_cons, List.map_cons, List.map_cons,
      List.map_cons, List.map_cons, List.map_nil,
      stripCR_of_not_mem _ (not_mem_append (not_mem_append (by decide)
        hcr) (by decide)),
      stripCR_of_not_mem _ (not_mem_append (not_mem_append (not_mem_append
        (not_mem_append (by decide) (not_mem_intRepr _).2.2.2)
        (not_mem_cons (by decide) (not_mem_intRepr _).2.2.2))
        (not_mem_cons (by decide) (not_mem_intRepr _).2.2.2)) (by decide)),
      stripCR_of_not_mem _ (not_mem_append (not_mem_append (by decide)
        (not_mem_intRepr _).2.2.2)
        (not_mem_cons (by decide) (not_mem_intRepr _).2.2.2)),
      stripCR_of_not_mem _ (not_mem_append (by decide)
        (format_scale_clean _).2.2.1),
      stripCR_of_not_mem _ (not_mem_append (by decide)
        (transform_to_sway_clean _).2.1),
      stripCR_of_not_mem _ (by decide)]
    rw [List.filterMap_cons_some (by
      rw [List.append_assoc]
      unfold swaySubject
      rw [if_pos (begins_append _ _),
        show (7 : Nat) = ("output ".toList : List Char).length from by
          decide,
        List.drop_left,
        show (" \x7b".toList : List Char) = ' ' :: "\x7b".toList from by
          decide,
        takeWhile_append_cons _ m.name ' ' _ hname (by decide)])]
    rw [List.filterMap_cons_none (swaySubject_none_of _ (by
        rw [show ("    mode ".toList : List Char) =
            ' ' :: "   mode ".toList from by decide]
        simp only [List.append_assoc, List.cons_append]
        rw [show ("output ".toList : List Char) =
          'o' :: "utput ".toList from by decide]
        exact begins_cons_ne 'o' ' ' _ _ (by decide))),
      List.filterMap_cons_none (swaySubject_none_of _ (by
        rw [show ("    pos ".toList : List Char) =
            ' ' :: "   pos ".toList from by decide]
        simp only [List.append_assoc, List.cons_append]
        rw [show ("output ".toList : List Char) =
          'o' :: "utput ".toList from by decide]
        exact begins_cons_ne 'o' ' ' _ _ (by decide))),
      List.filterMap_cons_none (swaySubject_none_of _ (by
        rw [show ("    scale ".toList : List Char) =
            ' ' :: "   scale ".toList from by decide]
        simp only [List.append_assoc, List.cons_append]
        rw [show ("output ".toList : List Char) =
          'o' :: "utput ".toList from by decide]
        exact begins_cons_ne 'o' ' ' _ _ (by decide))),
      List.filterMap_cons_none (swaySubject_none_of _ (by
        rw [show ("    transform ".toList : List Char) =
            ' ' :: "   transform ".toList from by decide]
        simp only [List.append_assoc, List.cons_append]
        rw [show ("output ".toList : List Char) =
          'o' :: "utput ".toList from by decide]
        exact begins_cons_ne 'o' ' ' _ _ (by decide))),
      List.filterMap_cons_none (show swaySubject "\x7d".toList = none
        from by decide)]
    rfl

theorem swayWsLine_clean (w : WorkspaceRule) (hg : goodName w.monitor) :
    '\n' ∉ swayWsLine w ∧ '\r' ∉ swayWsLine w := by
  obtain ⟨hnl, hcr, -, -⟩ := goodName_clean _ hg
  unfold swayWsLine
  exact ⟨not_mem_append (not_mem_append (not_mem_append (by decide)
      (natDigits_facts _).2.2.1) (by decide)) hnl,
    not_mem_append (not_mem_append (not_mem_append (by decide)
      (natDigits_facts _).2.2.2.1) (by decide)) hcr⟩

theorem swaySubject_wsline (w : WorkspaceRule) :
    swaySubject (swayWsLine w) = none := by
  apply swaySubject_none_of
  unfold swayWsLine
  simp only [List.append_assoc]
  rw [show ("workspace ".toList : List Char) =
      'w' :: "orkspace ".toList from by decide, List.cons_append,
    show ("output ".toList : List Char) = 'o' :: "utput ".toList from by
      decide]
  exact begins_cons_ne 'o' 'w' _ _ (by decide)

theorem sway_filterMap_blocks (ms : List WlMonitor)
    (h : ∀ m ∈ ms, goodName m.name) (rest : List (List Char)) :
    (rustLines (joinSep ['\n', '\n']
        ((ms.map swayMonitorBlock ++ rest) ++ [[]]))).filterMap
      swaySubject =
      ms.map WlMonitor.name ++
        (rustLines (joinSep ['\n', '\n'] (rest ++ [[]]))).filterMap
          swaySubject := by
  induction ms with
  | nil => rfl
  | cons m ms' ih =>
    show (rustLines (joinSep ['\n', '\n'] ((swayMonitorBlock m ::
      (ms'.map swayMonitorBlock ++ rest)) ++ [[]]))).filterMap
        swaySubject = _
    rw [List.cons_append, joinSep_cons_of_ne _ _ _ (by simp),
      List.append_assoc,
      show (['\n', '\n'] : List Char) ++ joinSep ['\n', '\n']
          ((ms'.map swayMonitorBlock ++ rest) ++ [[]]) =
        '\n' :: ('\n' :: joinSep ['\n', '\n']
          ((ms'.map swayMonitorBlock ++ rest) ++ [[]])) from rfl,
      rustLines_append_newline, rustLines_cons_newline,
      List.filterMap_append,
      sway_block_subjects m (h m (List.mem_cons_self _ _)),
      List.filterMap_cons_none (show swaySubject [] = none from by
        decide),
      ih (fun m' hm' => h m' (List.mem_cons_of_mem _ hm'))]
    rfl

theorem sway_ws_tail (wss : List WorkspaceRule)
    (hws : ∀ w ∈ wss, goodName w.monitor) :
    (rustLines (joinSep ['\n', '\n']
        ((if wss = [] then []
          else [joinSep ['\n'] (wss.map swayWsLine)]) ++ [[]]))).filterMap
      swaySubject = [] := by
  by_cases h : wss = []
  · rw [if_pos h]
    rfl
  · rw [if_neg h]
    show (rustLines (joinSep ['\n', '\n']
      [joinSep ['\n'] (wss.map swayWsLine), []])).filterMap swaySubject = _
    rw [joinSep_cons_of_ne _ _ _ (by simp),
      show joinSep ['\n', '\n'] [([] : List Char)] = [] from rfl,
      List.append_nil,
      show (['\n', '\n'] : List Char) = '\n' :: ['\n'] from rfl,
      rustLines_append_newline,
      show rustLines ['\n'] = [[]] from rfl,
      splitOnChar_joinSep '\n' _
        (by
          intro p hp
          obtain ⟨w, hw, rfl⟩ := List.mem_map.1 hp
          exact (swayWsLine_clean w (hws w hw)).1)
        (fun hc => h (List.map_eq_nil_iff.1 hc))]
    apply List.filterMap_eq_nil_iff.mpr
    intro l hl
    rcases List.mem_append.1 hl with h' | h'
    · obtain ⟨x, hx, rfl⟩ := List.mem_map.1 h'
      obtain ⟨w, hw, rfl⟩ := List.mem_map.1 hx
      rw [stripCR_of_not_mem _ (swayWsLine_clean w (hws w hw)).2]
      exact swaySubject_wsline w
    · rw [List.mem_singleton] at h'
      rw [h']
      decide

/-- The Sway formatter emits one block per output in input order. -/
theorem sway_subjects (ms : List WlMonitor) (wss : List WorkspaceRule)
    (hnames : ∀ m ∈ ms, goodName m.name)
    (hws : ∀ w ∈ wss, goodName w.monitor) :
    swaySubjects (configHeader ++ format_sway ms wss) =
      ms.map WlMonitor.name := by
  unfold swaySubjects
  rw [rustLines_header,
    List.filterMap_cons_none (show swaySubject _ = none from by decide),
    List.filterMap_cons_none (show swaySubject [] = none from by decide),
    format_sway, sway_filterMap_blocks ms hnames _, sway_ws_tail wss hws,
    List.append_nil]

/-- Claim C9: every persisted config (for a known compositor) starts
with the literal managed-file comment followed by a blank line and ends
with a newline; each formatter is a function of the input lists and
emits its output directives in input order (Hyprland additionally emits
a disable directive per disabled output, after that output's monitor
line). -/
theorem c9_save_header_newline_order (ms : List WlMonitor)
    (wss : List WorkspaceRule)
    (hnames : ∀ m ∈ ms, goodName m.name)
    (hws : ∀ w ∈ wss, goodName w.monitor) :
    (∀ c content, save_monitor_config_content c ms wss = some content →
      (rustLines content).take 2 =
        ["# This file is managed by xwlm. Do not edit manually.".toList,
          []] ∧
      content.getLast? = some '\n') ∧
    hyprSubjects (configHeader ++ format_hyprland ms wss) =
      ms.flatMap (fun m =>
        m.name :: (if m.enabled = true then [] else [m.name])) ∧
    swaySubjects (configHeader ++ format_sway ms wss) =
      ms.map WlMonitor.name ∧
    riverSubjects (configHeader ++ format_river ms) =
      ms.map WlMonitor.name := by
  refine ⟨?_, hypr_subjects ms wss hnames hws,
    sway_subjects ms wss hnames hws, river_subjects ms hnames⟩
  intro c content hsave
  cases c with
  | Unknown => exact Option.noConfusion hsave
  | Hyprland =>
    cases Option.some.inj hsave
    constructor
    · rw [rustLines_header]
      rfl
    · exact getLast_join_sep ['\n'] _ rfl
  | Sway =>
    cases Option.some.inj hsave
    constructor
    · rw [rustLines_header]
      rfl
    · exact getLast_join_sep ['\n', '\n'] _ rfl
  | River =>
    cases Option.some.inj hsave
    constructor
    · rw [rustLines_header]
      rfl
    · exact getLast_join_sep ['\n'] _ rfl

/-- The C9 statement at a concrete two-output, one-rule configuration. -/
theorem c9_save_header_newline_order_witness :
    (∀ m ∈ [c3WitMonA, c3WitMonB], goodName m.name) ∧
    swaySubjects (configHeader ++ format_sway [c3WitMonA, c3WitMonB]
        [⟨1, "DP-1".toList, true, false⟩]) =
      [c3WitMonA, c3WitMonB].map WlMonitor.name :=
  ⟨by decide,
    (c9_save_header_newline_order [c3WitMonA, c3WitMonB]
      [⟨1, "DP-1".toList, true, false⟩] (by decide) (by decide)).2.2.1⟩

end Wlx
